import Mathlib

/-!
Verification of the FHIR R4-to-STU3 transformation engine
(`util/r4_to_stu3_transformer`): a shallow embedding of the generic
structural rewrite passes, the PractitionerRole two-phase reference
resolution, the Communication and RelatedPerson rule sets, and the batch
orchestrator, together with theorems about the engine's documented
properties.

JSON documents are modelled by the mutual inductive `JVal` / `JArr` /
`JObj`; `JObj` is an insertion-ordered association list, mirroring Python
dict semantics (assignment updates an existing key in place, otherwise
appends).  Python exceptions are modelled with `Except Unit`; Python
truthiness with `jTruthy`.  Functions that the source runs on data it has
itself constructed (the extension-URL pass) take a fuel parameter so that
all recursion is structural and kernel-reducible.
-/

set_option maxRecDepth 10000

mutual
/-- A JSON value: the generic document-tree type the transformer operates on. -/
inductive JVal where
  | null
  | bool (b : Bool)
  | num (n : Int)
  | str (s : String)
  | arr (elems : JArr)
  | obj (fields : JObj)
deriving DecidableEq, Repr

/-- A JSON array (list of values). -/
inductive JArr where
  | nil
  | cons (v : JVal) (rest : JArr)
deriving DecidableEq, Repr

/-- A JSON object: an insertion-ordered association list of string keys. -/
inductive JObj where
  | nil
  | cons (k : String) (v : JVal) (rest : JObj)
deriving DecidableEq, Repr
end

instance {ε α : Type} [DecidableEq ε] [DecidableEq α] : DecidableEq (Except ε α)
  | .error e, .error f =>
      if h : e = f then .isTrue (by rw [h]) else .isFalse (by intro c; cases c; exact h rfl)
  | .ok a, .ok b =>
      if h : a = b then .isTrue (by rw [h]) else .isFalse (by intro c; cases c; exact h rfl)
  | .error _, .ok _ => .isFalse (by intro c; cases c)
  | .ok _, .error _ => .isFalse (by intro c; cases c)

/-- Build a `JObj` from a Lean list of key-value pairs (left to right). -/
def jo : List (String × JVal) → JObj
  | [] => .nil
  | (k, v) :: rest => .cons k v (jo rest)

/-- Build a `JArr` from a Lean list of values. -/
def ja : List JVal → JArr
  | [] => .nil
  | v :: rest => .cons v (ja rest)

/-- Convert a `JArr` to a Lean list. -/
def JArr.toList : JArr → List JVal
  | .nil => []
  | .cons v rest => v :: rest.toList

/-- Length of a `JArr`. -/
def JArr.length : JArr → Nat
  | .nil => 0
  | .cons _ rest => 1 + rest.length

/-- Membership test of a value in a `JArr` (Python `x in list`). -/
def JArr.containsVal : JArr → JVal → Bool
  | .nil, _ => false
  | .cons v rest, x => v = x || rest.containsVal x

/-- First value bound to key `k` (Python dict lookup; keys are unique in
documents parsed from JSON, so first match is the binding). -/
def JObj.get : JObj → String → Option JVal
  | .nil, _ => none
  | .cons k v rest, s => if k = s then some v else rest.get s

/-- Key membership (Python `k in d`). -/
def JObj.hasKey : JObj → String → Bool
  | .nil, _ => false
  | .cons k _ rest, s => k = s || rest.hasKey s

/-- Python dict assignment `d[k] = v`: update the first occurrence of `k`
in place (keeping its position), otherwise append at the end. -/
def JObj.set : JObj → String → JVal → JObj
  | .nil, s, x => .cons s x .nil
  | .cons k v rest, s, x => if k = s then .cons k x rest else .cons k v (rest.set s x)

/-- Remove every binding of key `k`, keeping the order of the rest
(Python dict comprehension filtering out one key). -/
def JObj.remove : JObj → String → JObj
  | .nil, _ => .nil
  | .cons k v rest, s => if k = s then rest.remove s else .cons k v (rest.remove s)

/-- Keys of an object, in insertion order. -/
def JObj.keys : JObj → List String
  | .nil => []
  | .cons k _ rest => k :: rest.keys

/-- Python truthiness of a JSON value (`if x:`): empty string, empty list,
empty dict, zero, `False` and `None` are falsy. -/
def jTruthy : JVal → Bool
  | .null => false
  | .bool b => b
  | .num n => n != 0
  | .str s => s ≠ ""
  | .arr a => a != .nil
  | .obj f => f != .nil

/-- Python truthiness of an optional value (`d.get(k)` returns `None` when
absent, which is falsy). -/
def jTruthyOpt : Option JVal → Bool
  | none => false
  | some v => jTruthy v

/- Character-list string helpers, mirroring Python's `str` operations.
Defined from scratch so that every proof obligation reduces in the kernel. -/

/-- Whether `pat` occurs at the start of `l` (chars of Python
`startswith`). -/
def charsStartWith : List Char → List Char → Bool
  | [], _ => true
  | _ :: _, [] => false
  | a :: as, b :: bs => a = b && charsStartWith as bs

/-- Whether `pat` occurs contiguously anywhere in `l` (Python `sub in s`). -/
def charsContainRun (pat : List Char) : List Char → Bool
  | [] => charsStartWith pat []
  | c :: rest => charsStartWith pat (c :: rest) || charsContainRun pat rest

/-- Replace every non-overlapping occurrence of `pat` by `rep`, scanning
left to right (Python `str.replace`); `fuel` bounds the scan and is
instantiated with the string length.  An empty pattern is left alone
(the transformer never calls `replace` with an empty pattern). -/
def charsReplace (pat rep : List Char) : Nat → List Char → List Char
  | _, [] => []
  | 0, l => l
  | f + 1, c :: rest =>
      if pat ≠ [] && charsStartWith pat (c :: rest) then
        rep ++ charsReplace pat rep f (List.drop (pat.length - 1) rest)
      else
        c :: charsReplace pat rep f rest

/-- Python `s.startswith(pat)`. -/
def pyStartsWith (s pat : String) : Bool := charsStartWith pat.data s.data

/-- Python `sub in s` (substring containment). -/
def pyContainsSub (s sub : String) : Bool := charsContainRun sub.data s.data

/-- Python `s.replace(old, new)` (all occurrences, left to right). -/
def pyReplace (s pat rep : String) : String :=
  ⟨charsReplace pat.data rep.data s.data.length s.data⟩

/-- Python `k in x` for a string literal `k` and an arbitrary container
`x`: key membership for a dict, substring test for a string, element
equality for a list; a `TypeError` (modelled as `.error`) for
non-containers. -/
def pyContains (x : JVal) (k : String) : Except Unit Bool :=
  match x with
  | .obj f => .ok (f.hasKey k)
  | .str s => .ok (pyContainsSub s k)
  | .arr a => .ok (a.containsVal (.str k))
  | _ => .error ()

/-- Python `x[k]` for a string key `k`: a dict yields the binding (or
`KeyError`); strings and lists reject string indices (`TypeError`), as do
scalars. -/
def pyIndexStr (x : JVal) (k : String) : Except Unit JVal :=
  match x with
  | .obj f =>
      match f.get k with
      | some v => .ok v
      | none => .error ()
  | _ => .error ()

/-- Python `for y in x`: a string yields its characters as one-character
strings, a list its elements, a dict its keys; scalars raise `TypeError`. -/
def pyIter (x : JVal) : Except Unit (List JVal) :=
  match x with
  | .str s => .ok (s.data.map (fun c => JVal.str ⟨[c]⟩))
  | .arr a => .ok a.toList
  | .obj f => .ok (f.keys.map JVal.str)
  | _ => .error ()

example : pyReplace "PractitionerRole/42" "PractitionerRole/" "" = "42" := by decide
example : pyStartsWith "PractitionerRole/42" "PractitionerRole/" = true := by decide
example : (jo [("a", .str "x")]).set "a" (.str "y") = jo [("a", .str "y")] := by decide
example : (jo [("a", .str "x"), ("b", .null)]).remove "a" = jo [("b", .null)] := by decide

/-! ## BaseTransformer: generic structural rewrite passes
Embedded from `transformers/base_transformer.py`. -/

/-- `BaseTransformer.transform_reference`: copy every field except the
R4-specific `type` field, preserving order. -/
def transform_reference (fields : JObj) : JObj := fields.remove "type"

mutual
/-- `BaseTransformer.clean_references_in_object`: recursively rebuild the
tree; a dict carrying both a `reference` and a `type` key is replaced by
`transform_reference` of itself (its children are returned as they are,
without further recursion); all other dicts and lists are rebuilt with
cleaned children; scalars are returned unchanged. -/
def clean_references_in_object : JVal → JVal
  | .obj fields =>
      if fields.hasKey "reference" && fields.hasKey "type" then
        .obj (transform_reference fields)
      else
        .obj (cleanObjFields fields)
  | .arr l => .arr (cleanArrElems l)
  | v => v

/-- Field-wise recursion of `clean_references_in_object` over a dict. -/
def cleanObjFields : JObj → JObj
  | .nil => .nil
  | .cons k v rest => .cons k (clean_references_in_object v) (cleanObjFields rest)

/-- Element-wise recursion of `clean_references_in_object` over a list. -/
def cleanArrElems : JArr → JArr
  | .nil => .nil
  | .cons v rest => .cons (clean_references_in_object v) (cleanArrElems rest)
end

/-- `BaseTransformer._is_r4_specific_extension`: the fixed denylist of
extension URLs with no STU3 equivalent. -/
def is_r4_specific_extension (url : String) : Bool :=
  url = "http://hl7.org/fhir/StructureDefinition/patient-relatedPerson"

/-- `BaseTransformer.apply_global_extension_url_mappings`: exact-match
table first, generic R4-to-STU3 token substitution otherwise. -/
def apply_global_extension_url_mappings (url : String) : String :=
  if url = "http://nictiz.nl/fhir/StructureDefinition/ext-CodeSpecification" then
    "http://nictiz.nl/fhir/StructureDefinition/code-specification"
  else if url = "http://nictiz.nl/fhir/StructureDefinition/ext-AddressInformation.AddressType" then
    "http://nictiz.nl/fhir/StructureDefinition/zib-AddressInformation-AddressType"
  else
    pyReplace (pyReplace (pyReplace url "/R4/" "/STU3/") "/r4/" "/stu3/") "4.0" "3.0"

mutual
/-- `BaseTransformer.transform_extensions_in_object`: recursively rewrite
extension lists.  A dict whose `extension` key holds a list gets that list
passed through `transform_extension_urls`; if the result is non-empty the
key is re-assigned in place, otherwise the key is dropped entirely; the
walk then recurses into every value of the (possibly updated) dict and
into every list element.  The source recurses into lists it has just
built, so the recursion is bounded by fuel (decremented once per call;
exhaustion is an error, which never fires at sufficient fuel). -/
def transform_extensions_in_object : Nat → JVal → Except Unit JVal
  | 0, _ => .error ()
  | f + 1, .obj fields => do
      let fields' ←
        match fields.get "extension" with
        | some (.arr exts) => do
            let t ← transform_extension_urls f exts
            if t = .nil then pure (fields.remove "extension")
            else pure (fields.set "extension" (.arr t))
        | _ => pure fields
      let out ← transformExtFields f fields'
      pure (.obj out)
  | f + 1, .arr l => do
      let out ← transformExtElems f l
      pure (.arr out)
  | _ + 1, v => pure v

/-- Field-wise recursion of `transform_extensions_in_object`. -/
def transformExtFields : Nat → JObj → Except Unit JObj
  | 0, _ => .error ()
  | _ + 1, .nil => pure .nil
  | f + 1, .cons k v rest => do
      pure (.cons k (← transform_extensions_in_object f v) (← transformExtFields f rest))

/-- Element-wise recursion of `transform_extensions_in_object`. -/
def transformExtElems : Nat → JArr → Except Unit JArr
  | 0, _ => .error ()
  | _ + 1, .nil => pure .nil
  | f + 1, .cons v rest => do
      pure (.cons (← transform_extensions_in_object f v) (← transformExtElems f rest))

/-- `BaseTransformer.transform_extension_urls`: drop denylisted
extensions, rewrite the URLs of the survivors, recurse into their nested
extension lists.  A non-dict entry raises (`ext.get` on a non-dict), as
does a non-string `url` value (unhashable values at the denylist set
membership, other non-strings at `url.replace`). -/
def transform_extension_urls : Nat → JArr → Except Unit JArr
  | 0, _ => .error ()
  | _ + 1, .nil => pure .nil
  | f + 1, .cons e rest =>
      match e with
      | .obj ext =>
          match (ext.get "url").getD (.str "") with
          | .str s =>
              if is_r4_specific_extension s then
                transform_extension_urls f rest
              else do
                let newUrl := apply_global_extension_url_mappings s
                let ext1 := if newUrl ≠ s then ext.set "url" (.str newUrl) else ext
                let ext2 ←
                  match ext1.get "extension" with
                  | some (.arr nested) => do
                      pure (ext1.set "extension" (.arr (← transform_extension_urls f nested)))
                  | _ => pure ext1
                pure (.cons (.obj ext2) (← transform_extension_urls f rest))
          | _ => .error ()
      | _ => .error ()
end

/-! ## PractitionerRole reference resolution (Phase 2) -/

/-- The Phase-1 index: role id (any truthy Python value; strings in
practice) mapped to the raw PractitionerRole document. -/
abbrev PRIndex := List (JVal × JVal)

/-- Lookup in the index (Python dict `get` with equality on keys). -/
def idxGet : PRIndex → JVal → Option JVal
  | [], _ => none
  | (k, v) :: rest, x => if k = x then some v else idxGet rest x

/-- Insertion into the index (Python dict assignment: update the existing
key in place, else append). -/
def idxSet : PRIndex → JVal → JVal → PRIndex
  | [], k, v => [(k, v)]
  | (k', v') :: rest, k, v =>
      if k' = k then (k', v) :: rest else (k', v') :: idxSet rest k v

/-- The fixed extension URL used to preserve the original PractitionerRole
reference. -/
def practitionerrole_reference_url : String :=
  "http://nictiz.nl/fhir/StructureDefinition/practitionerrole-reference"

/-- Entry condition of `transform_practitioner_role_reference`: an
explicit `type` marker equal to `PractitionerRole`, or a `reference`
string starting with `PractitionerRole/` (`startswith` on a non-string
reference raises). -/
def isPractitionerRoleRefCond (fields : JObj) : Except Unit Bool :=
  if fields.get "type" = some (.str "PractitionerRole") then .ok true
  else
    match fields.get "reference" with
    | none => .ok false
    | some (.str s) => .ok (pyStartsWith s "PractitionerRole/")
    | some _ => .error ()

/-- Resolution step of `transform_practitioner_role_reference`: from the
original role reference value and the optional index, produce the
practitioner's `reference`/`display` values when the role resolves
(`None`/`None` otherwise, mirroring the source's two local variables). -/
def resolvePractitioner (roleRef : JVal) (prr : Option PRIndex) :
    Except Unit (Option JVal × Option JVal) :=
  match prr with
  | some idx =>
      if idx ≠ [] && jTruthy roleRef then
        match roleRef with
        | .str rs =>
            let roleId := pyReplace rs "PractitionerRole/" ""
            match idxGet idx (.str roleId) with
            | some role =>
                if jTruthy role then do
                  let hasP ← pyContains role "practitioner"
                  if hasP then do
                    let pd ← pyIndexStr role "practitioner"
                    match pd with
                    | .obj pf => pure (pf.get "reference", pf.get "display")
                    | _ => .error ()
                  else pure (none, none)
                else pure (none, none)
            | none => pure (none, none)
        | _ => .error ()
      else pure (none, none)
  | none => pure (none, none)

/-- `BaseTransformer.transform_practitioner_role_reference`: rewrite a
PractitionerRole reference node to the STU3 pattern.  On a resolution hit
the node points at the practitioner; on a miss it keeps the original role
reference/display; in both cases a single-element extension list with the
fixed URL and a `valueReference` holding the original role reference (and
display, when truthy) is attached.  A non-PractitionerRole node is cleaned
with `transform_reference`. -/
def transform_practitioner_role_reference (fields : JObj) (prr : Option PRIndex) :
    Except Unit JVal := do
  let cond ← isPractitionerRoleRefCond fields
  if cond then
    let roleRef : JVal := (fields.get "reference").getD (.str "")
    let roleDisp : JVal := (fields.get "display").getD (.str "")
    let (practRef, practDisp) ← resolvePractitioner roleRef prr
    let s1 : JObj :=
      match practRef with
      | some pr =>
          if jTruthy pr then
            let a := (JObj.nil).set "reference" pr
            match practDisp with
            | some d => if jTruthy d then a.set "display" d else a
            | none => a
          else
            let a := (JObj.nil).set "reference" roleRef
            if jTruthy roleDisp then a.set "display" roleDisp else a
      | none =>
          let a := (JObj.nil).set "reference" roleRef
          if jTruthy roleDisp then a.set "display" roleDisp else a
    let vr : JObj :=
      let v0 : JObj := .cons "reference" roleRef .nil
      if jTruthy roleDisp then v0.set "display" roleDisp else v0
    let ext : JObj :=
      .cons "url" (.str practitionerrole_reference_url)
        (.cons "valueReference" (.obj vr) .nil)
    pure (.obj (s1.set "extension" (.arr (.cons (.obj ext) .nil))))
  else
    pure (.obj (transform_reference fields))

mutual
/-- `BaseTransformer.process_practitioner_role_references_in_object`:
recursively find reference nodes that point at a PractitionerRole (by
`type` marker or by reference-string shape) and rewrite them with
`transform_practitioner_role_reference`; recurse everywhere else. -/
def process_practitioner_role_references_in_object (v : JVal) (prr : Option PRIndex) :
    Except Unit JVal :=
  match v with
  | .obj fields =>
      if fields.hasKey "reference" &&
          (fields.get "type" = some (.str "PractitionerRole") ||
            (match fields.get "reference" with
             | some (.str s) => pyStartsWith s "PractitionerRole/"
             | _ => false)) then
        transform_practitioner_role_reference fields prr
      else do
        pure (.obj (← processPRRFields fields prr))
  | .arr l => do
      pure (.arr (← processPRRElems l prr))
  | v => pure v

/-- Field-wise recursion of
`process_practitioner_role_references_in_object`. -/
def processPRRFields (fields : JObj) (prr : Option PRIndex) : Except Unit JObj :=
  match fields with
  | .nil => pure .nil
  | .cons k v rest => do
      pure (.cons k (← process_practitioner_role_references_in_object v prr)
        (← processPRRFields rest prr))

/-- Element-wise recursion of
`process_practitioner_role_references_in_object`. -/
def processPRRElems (l : JArr) (prr : Option PRIndex) : Except Unit JArr :=
  match l with
  | .nil => pure .nil
  | .cons v rest => do
      pure (.cons (← process_practitioner_role_references_in_object v prr)
        (← processPRRElems rest prr))
end

/-! ## CommunicationTransformer
Embedded from `transformers/communication_transformer.py`. -/

/-- `BaseTransformer.convert_profile_url`: generic R4-to-STU3 URL token
substitution. -/
def convert_profile_url (url : String) : String :=
  pyReplace (pyReplace (pyReplace url "/R4/" "/STU3/") "/r4/" "/stu3/") "4.0" "3.0"

/-- Copy `src[k]` into `dst` when `k in src` (used by `transform_meta` on
an arbitrary meta value; `in` and indexing follow Python semantics and can
raise). -/
def copyIfContains (src : JVal) (dst : JObj) (k : String) : Except Unit JObj := do
  if ← pyContains src k then
    pure (dst.set k (← pyIndexStr src k))
  else
    pure dst

/-- `BaseTransformer.transform_meta`: copy `versionId`, `lastUpdated`,
`source`, rewrite every profile URL, copy `tag` and `security`.  Iterating
a non-string profile entry raises at `convert_profile_url`. -/
def transform_meta (m : JVal) : Except Unit JVal := do
  let s1 ← copyIfContains m .nil "versionId"
  let s2 ← copyIfContains m s1 "lastUpdated"
  let s3 ← copyIfContains m s2 "source"
  let s4 ←
    if ← pyContains m "profile" then do
      let pv ← pyIndexStr m "profile"
      let items ← pyIter pv
      let urls ← items.mapM (fun it =>
        match it with
        | .str s => pure (JVal.str (convert_profile_url s))
        | _ => Except.error ())
      pure (s3.set "profile" (.arr (ja urls)))
    else pure s3
  let s5 ← copyIfContains m s4 "tag"
  let s6 ← copyIfContains m s5 "security"
  pure (.obj s6)

/-- `CommunicationTransformer._transform_instantiates_canonical`. -/
def transform_instantiates_canonical (r4 stu3 : JObj) : JObj :=
  match r4.get "instantiatesCanonical" with
  | some v => stu3.set "definition" v
  | none => stu3

/-- `CommunicationTransformer._transform_status_and_not_done`: a falsy
status is dropped; `not-done` maps to `completed` with `notDone` holding
the original value and `statusReason` carried over as `notDoneReason`;
every other truthy status is copied unchanged. -/
def transform_status_and_not_done (r4 stu3 : JObj) : JObj :=
  match r4.get "status" with
  | none => stu3
  | some v =>
      if ¬ jTruthy v then stu3
      else if v = .str "not-done" then
        let s1 := (stu3.set "status" (.str "completed")).set "notDone" v
        match r4.get "statusReason" with
        | some r => s1.set "notDoneReason" r
        | none => s1
      else stu3.set "status" v

/-- `CommunicationTransformer._transform_encounter_to_context`. -/
def transform_encounter_to_context (r4 stu3 : JObj) : JObj :=
  match r4.get "encounter" with
  | some v => stu3.set "context" v
  | none => stu3

/-- The extension URL carrying the STU3 `topic` value. -/
def communication_topic_extension_url : String :=
  "http://hl7.org/fhir/3.0/StructureDefinition/extension-Communication.topic"

/-- Loop body of `CommunicationTransformer._transform_topic_extension`:
scan the iterated extension entries for the topic URL, map its value to a
direct `topic` field, stop at the first match (`break`); calling `.get` on
a non-dict entry raises. -/
def topicLoop : List JVal → JObj → Except Unit JObj
  | [], stu3 => pure stu3
  | e :: rest, stu3 =>
      match e with
      | .obj ef =>
          if ef.get "url" = some (.str communication_topic_extension_url) then
            pure (match ef.get "value" with
              | some v => stu3.set "topic" v
              | none =>
                match ef.get "valueReference" with
                | some v => stu3.set "topic" v
                | none =>
                  match ef.get "valueCodeableConcept" with
                  | some v => stu3.set "topic" v
                  | none => stu3)
          else topicLoop rest stu3
      | _ => .error ()

/-- `CommunicationTransformer._transform_topic_extension`: iterate the
`extension` value with Python `for` semantics and run `topicLoop`. -/
def transform_topic_extension (r4 stu3 : JObj) : Except Unit JObj :=
  match r4.get "extension" with
  | none => pure stu3
  | some ev => do
      topicLoop (← pyIter ev) stu3

/-- One payload entry of `CommunicationTransformer._transform_payload`:
for a dict, pick the first present polymorphic content variant and then
copy every non-content field in order.  A non-dict entry raises while
being indexed (string indices / unhashable keys), except the empty string
and the empty list, which produce an empty payload dict.  (Python would
also accept a non-empty list whose elements are all in-range integers;
that corner is modelled as an error since the resulting integer dict keys
are outside the JSON object model.) -/
def payloadElem (p : JVal) : Except Unit JVal :=
  match p with
  | .obj pf =>
      let s0 : JObj :=
        match pf.get "contentString" with
        | some v => (JObj.nil).set "contentString" v
        | none =>
          match pf.get "contentAttachment" with
          | some v => (JObj.nil).set "contentAttachment" v
          | none =>
            match pf.get "contentReference" with
            | some v => (JObj.nil).set "contentReference" v
            | none =>
              match pf.get "content" with
              | some v => (JObj.nil).set "content" v
              | none => .nil
      pure (.obj (payloadCopyRest pf s0))
  | .str s => if s = "" then pure (.obj .nil) else .error ()
  | .arr a => if a = .nil then pure (.obj .nil) else .error ()
  | _ => .error ()
where
  /-- Copy every field whose key is not one of the content variants. -/
  payloadCopyRest : JObj → JObj → JObj
    | .nil, acc => acc
    | .cons k v rest, acc =>
        if k = "contentString" ∨ k = "contentAttachment" ∨ k = "contentReference" ∨
            k = "content" then
          payloadCopyRest rest acc
        else
          payloadCopyRest rest (acc.set k v)

/-- `CommunicationTransformer._transform_payload`: map `payloadElem` over
the iterated payload value; assign the result only when non-empty. -/
def transform_payload (r4 stu3 : JObj) : Except Unit JObj :=
  match r4.get "payload" with
  | none => pure stu3
  | some pv => do
      let items ← pyIter pv
      let outs ← items.mapM payloadElem
      if outs ≠ [] then pure (stu3.set "payload" (.arr (ja outs)))
      else pure stu3

/-- The direct field copies of `CommunicationTransformer._copy_direct_mappings`. -/
def communication_direct_fields : List String :=
  ["identifier", "basedOn", "partOf", "category", "medium", "subject", "recipient",
   "sent", "received", "sender", "reasonCode", "reasonReference", "note"]

/-- Copy each listed field present in `r4` into `stu3`, in list order. -/
def copyFields (r4 : JObj) : List String → JObj → JObj
  | [], stu3 => stu3
  | k :: rest, stu3 =>
      match r4.get k with
      | some v => copyFields r4 rest (stu3.set k v)
      | none => copyFields r4 rest stu3

/-- Pre-`try` part of `CommunicationTransformer.transform_resource`:
resource type and id first, then meta (which can raise, outside the
`try`), then `text` and `contained`. -/
def comm_transform_setup (r4 : JObj) : Except Unit JObj := do
  let s0 : JObj := .cons "resourceType" (.str "Communication") .nil
  let s1 := match r4.get "id" with
    | some v => s0.set "id" v
    | none => s0
  let s2 ←
    match r4.get "meta" with
    | some m => do pure (s1.set "meta" (← transform_meta m))
    | none => pure s1
  let s3 := match r4.get "text" with
    | some v => s2.set "text" v
    | none => s2
  let s4 := match r4.get "contained" with
    | some v => s3.set "contained" v
    | none => s3
  pure s4

/-- Body of the `try` block of
`CommunicationTransformer.transform_resource`: the Communication-specific
field transformations followed by the two generic rewrite passes. -/
def comm_transform_pipeline (fuel : Nat) (r4 stu3 : JObj) : Except Unit JVal := do
  let s1 := transform_instantiates_canonical r4 stu3
  let s2 := transform_status_and_not_done r4 s1
  let s3 := transform_encounter_to_context r4 s2
  let s4 ← transform_topic_extension r4 s3
  let s5 ← transform_payload r4 s4
  let s6 := copyFields r4 communication_direct_fields s5
  let s7 := clean_references_in_object (.obj s6)
  transform_extensions_in_object fuel s7

/-- `CommunicationTransformer.transform_resource`: decline a non-matching
resource type with `None`; run the field pipeline under `try`, turning any
exception into `None` (a skip); exceptions before the `try` (meta) and a
non-dict resource (`can_transform` indexing) propagate to the caller. -/
def comm_transform_resource (fuel : Nat) (doc : JVal) : Except Unit (Option JVal) :=
  match doc with
  | .obj r4 =>
      if r4.get "resourceType" ≠ some (.str "Communication") then pure none
      else do
        let base ← comm_transform_setup r4
        match comm_transform_pipeline fuel r4 base with
        | .ok v => pure (some v)
        | .error _ => pure none
  | _ => .error ()

/-! ## RelatedPersonTransformer
Embedded from `transformers/related_person_transformer.py`. -/

/-- Building the data-loss warning evaluates `rel.get('text', str(rel))`
for every discarded element, which raises on a non-dict element. -/
def lossMessageCheck : List JVal → Except Unit Unit
  | [] => pure ()
  | .obj _ :: rest => lossMessageCheck rest
  | _ => .error ()

/-- `RelatedPersonTransformer._transform_relationship`: a falsy value
collapses to an empty dict; a list of length greater than one is collapsed
to its first element with a data-loss warning citing the discarded tail
(building the warning calls `.get` on each tail element and raises on a
non-dict); a single-element list collapses to that element silently.  The
second component is the reported loss: the discarded elements (empty when
nothing was reported). -/
def rp_transform_relationship (v : JVal) : Except Unit (JVal × List JVal) :=
  match v with
  | .arr a =>
      match a.toList with
      | [] => pure (.obj .nil, [])
      | [x] => pure (x, [])
      | x :: y :: rest => do
          let _ ← lossMessageCheck (y :: rest)
          pure (x, y :: rest)
  | .str s =>
      match s.data with
      | [] => pure (.obj .nil, [])
      | [c] => pure (.str ⟨[c]⟩, [])
      | _ => .error ()
  | .obj f => if f = .nil then pure (.obj .nil, []) else .error ()
  | .num n => if n = 0 then pure (.obj .nil, []) else .error ()
  | .bool b => if b then .error () else pure (.obj .nil, [])
  | .null => pure (.obj .nil, [])

/-- The direct field copies of `RelatedPersonTransformer._copy_direct_mappings`. -/
def related_person_direct_fields : List String :=
  ["identifier", "active", "patient", "name", "telecom", "gender", "birthDate",
   "address", "photo", "period"]

/-- `RelatedPersonTransformer._copy_direct_mappings`: the direct copies
followed by the cardinality-collapsing `relationship` handling; the second
component is the reported data loss. -/
def rp_copy_direct_mappings (r4 stu3 : JObj) : Except Unit (JObj × List JVal) := do
  let s10 := copyFields r4 related_person_direct_fields stu3
  match r4.get "relationship" with
  | some v => do
      let (rv, loss) ← rp_transform_relationship v
      pure (s10.set "relationship" rv, loss)
  | none => pure (s10, [])

/-! ## Orchestrator
Embedded from `fhir_r4_to_stu3_transformer.py`.  The registry built by
runtime discovery is modelled as an explicit map from resource-type name
to the rule set's `transform_resource` function; file loading is
abstracted to in-memory documents (one per input file), a directory to a
list of documents. -/

/-- A registered rule set: the per-type `transform_resource` entry point
(`None` result declines the instance; an exception propagates). -/
abbrev TransformerFn := JVal → Except Unit (Option JVal)

/-- The registry: resource-type tag to rule set. -/
abbrev Registry := String → Option TransformerFn

/-- The fixed deny set of `transform_resource` / `transform_file`: types
never converted. -/
def denied_resource_types : List String :=
  ["ValueSet", "StructureDefinition", "ImplementationGuide", "Parameters",
   "SearchParameter"]

/-- Whether a `resourceType` value is in the deny set (a missing or
non-string value never is). -/
def rtIsDenied (rtv : Option JVal) : Bool :=
  match rtv with
  | some (.str s) => s ∈ denied_resource_types
  | _ => false

/-- One document's contribution to the Phase-1 index
(`_collect_practitioner_role_resources_from_dirs` loop body): a
PractitionerRole document with a truthy `id` is inserted under that id
(later insertions overwrite, last-write-wins); anything else — including
an unreadable document, whose exception is caught per file — leaves the
index unchanged. -/
def collect_practitioner_role_step (idx : PRIndex) (doc : JVal) : PRIndex :=
  match doc with
  | .obj f =>
      if f.get "resourceType" = some (.str "PractitionerRole") then
        match f.get "id" with
        | some idv => if jTruthy idv then idxSet idx idv doc else idx
        | none => idx
      else idx
  | _ => idx

/-- `FhirR4ToStu3Transformer._collect_practitioner_role_resources_from_dirs`:
fold the collection step over every document of every input directory, in
directory order then file order. -/
def collect_practitioner_role_resources_from_dirs (dirs : List (List JVal)) : PRIndex :=
  dirs.flatten.foldl collect_practitioner_role_step []

/-- `FhirR4ToStu3Transformer.transform_resource`: deny-set check first
(skip), then registry dispatch (`ValueError` for an unregistered or
non-string type), then the rule set, then — only when the index and the
draft are both truthy — the Phase-2 PractitionerRole resolution pass. -/
def orch_transform_resource (reg : Registry) (prr : Option PRIndex) (doc : JVal) :
    Except Unit (Option JVal) :=
  match doc with
  | .obj f =>
      let rtv := f.get "resourceType"
      if rtIsDenied rtv then pure none
      else
        match rtv with
        | some (.str rt) =>
            match reg rt with
            | some tfn => do
                let stu3 ← tfn doc
                let prrTruthy := match prr with
                  | some l => l ≠ []
                  | none => false
                match stu3 with
                | some v =>
                    if prrTruthy && jTruthy v then do
                      pure (some (← process_practitioner_role_references_in_object v prr))
                    else pure (some v)
                | none => pure none
            | none => .error ()
        | _ => .error ()
  | _ => .error ()

/-- The per-file result reported by the orchestrator. -/
inductive Outcome where
  | written (doc : JVal)
  | skipped
  | error
deriving DecidableEq, Repr

/-- `FhirR4ToStu3Transformer.transform_file`: the deny-set pre-check skips;
a `None` draft skips; a successful draft is written; every exception in
the `try` (including the `ValueError` of an unsupported type and a
non-dict document) is caught and reported as an error. -/
def orch_transform_file (reg : Registry) (prr : Option PRIndex) (doc : JVal) : Outcome :=
  match doc with
  | .obj f =>
      if rtIsDenied (f.get "resourceType") then .skipped
      else
        match orch_transform_resource reg prr doc with
        | .ok (some v) => .written v
        | .ok none => .skipped
        | .error _ => .error
  | _ => .error

/-- The per-document body of the `transform_directories` loop: the
optional resource-type filter first (its own document read can raise
inside the outer `try`, counted as an error; a non-string type is not in
the string filter set and is skipped, and an unhashable type raises),
then `transform_file`. -/
def orch_process_one (reg : Registry) (filt : Option (List String))
    (prr : Option PRIndex) (doc : JVal) : Outcome :=
  match filt with
  | some ft =>
      if ft ≠ [] then
        match doc with
        | .obj f =>
            match f.get "resourceType" with
            | some (.str s) =>
                if s ∈ ft then orch_transform_file reg prr doc else .skipped
            | some (.arr _) => .error
            | some (.obj _) => .error
            | _ => .skipped
        | _ => .error
      else orch_transform_file reg prr doc
  | none => orch_transform_file reg prr doc

/-- The running counters of `transform_directories`. -/
structure RunStats where
  success : Nat
  errors : Nat
  skipped : Nat
deriving DecidableEq, Repr

/-- Add one outcome to the counters. -/
def bumpStats (s : RunStats) : Outcome → RunStats
  | .written _ => { s with success := s.success + 1 }
  | .skipped => { s with skipped := s.skipped + 1 }
  | .error => { s with errors := s.errors + 1 }

/-- `FhirR4ToStu3Transformer.transform_directories`: pool the files of
every input directory, build the PractitionerRole index from all of them
(Phase 1), then loop over the pooled files transforming each against that
index, accumulating the counters. -/
def orch_transform_directories (reg : Registry) (filt : Option (List String))
    (dirs : List (List JVal)) : RunStats × List Outcome :=
  let prr := collect_practitioner_role_resources_from_dirs dirs
  dirs.flatten.foldl
    (fun acc doc =>
      let o := orch_process_one reg filt (some prr) doc
      (bumpStats acc.1 o, acc.2 ++ [o]))
    (⟨0, 0, 0⟩, [])

/-! ## Heap model of the Communication transform
The plain embedding above treats documents as values, which cannot express
the source's in-place mutations and aliasing.  This section re-embeds the
Communication pipeline over an explicit heap of Python objects (dicts and
lists are mutable cells addressed by allocation order; strings and numbers
are immutable and stored inline), so that mutation of the caller's input
document becomes observable.  Only the pointer structure matters here:
`d[k] = v` copies the reference `v`, `dict.copy()` is a shallow copy, and
`obj['extension'] = transformed` overwrites a field of an existing cell. -/

/-- A Python value in the heap model: a reference to a mutable cell, or an
immutable scalar stored inline. -/
inductive HV where
  | addr (a : Nat)
  | hstr (s : String)
  | hnum (n : Int)
  | hbool (b : Bool)
  | hnull
deriving DecidableEq, Repr

/-- A mutable cell: a dict (insertion-ordered fields) or a list. -/
inductive Cell where
  | dictC (fields : List (String × HV))
  | listC (elems : List HV)
deriving DecidableEq, Repr

/-- The heap, addressed by position; allocation appends. -/
abbrev Heap := List Cell

/-- The effect monad of the heap model: heap state plus Python
exceptions (state survives an exception, as in Python). -/
abbrev HM := ExceptT Unit (StateM Heap)

/-- Allocate a new cell, returning its address. -/
def halloc (c : Cell) : HM Nat := do
  let h ← get
  set (h ++ [c])
  pure h.length

/-- Read a cell (addresses produced by this model are always valid). -/
def hget (a : Nat) : HM Cell := do
  match (← get).get? a with
  | some c => pure c
  | none => throw ()

/-- Overwrite a cell in place. -/
def hset (a : Nat) (c : Cell) : HM Unit := do
  set ((← get).set a c)

/-- Dict-field lookup in a cell's field list. -/
def hdGet : List (String × HV) → String → Option HV
  | [], _ => none
  | (k, v) :: rest, s => if k = s then some v else hdGet rest s

/-- Dict-field membership. -/
def hdHasKey (fl : List (String × HV)) (s : String) : Bool :=
  (hdGet fl s).isSome

/-- Python dict assignment on a field list: update in place or append. -/
def hdSet : List (String × HV) → String → HV → List (String × HV)
  | [], s, x => [(s, x)]
  | (k, v) :: rest, s, x =>
      if k = s then (k, x) :: rest else (k, v) :: hdSet rest s x

/-- Python truthiness of a heap value (dereferences containers). -/
def hTruthy (v : HV) : HM Bool :=
  match v with
  | .hstr s => pure (s ≠ "")
  | .hnum n => pure (n != 0)
  | .hbool b => pure b
  | .hnull => pure false
  | .addr a => do
      match ← hget a with
      | .dictC fl => pure (fl ≠ [])
      | .listC es => pure (es ≠ [])

/-- Python `k in x` over the heap. -/
def pyContainsH (x : HV) (k : String) : HM Bool :=
  match x with
  | .hstr s => pure (pyContainsSub s k)
  | .addr a => do
      match ← hget a with
      | .dictC fl => pure (hdHasKey fl k)
      | .listC es => pure (es.contains (.hstr k))
  | _ => throw ()

/-- Python `x[k]` for a string key over the heap. -/
def pyIndexH (x : HV) (k : String) : HM HV :=
  match x with
  | .addr a => do
      match ← hget a with
      | .dictC fl =>
          match hdGet fl k with
          | some v => pure v
          | none => throw ()
      | .listC _ => throw ()
  | _ => throw ()

/-- Python `for y in x` over the heap. -/
def pyIterH (x : HV) : HM (List HV) :=
  match x with
  | .hstr s => pure (s.data.map (fun c => HV.hstr ⟨[c]⟩))
  | .addr a => do
      match ← hget a with
      | .listC es => pure es
      | .dictC fl => pure (fl.map (fun kv => HV.hstr kv.1))
  | _ => throw ()

/-- Heap version of the `transform_meta` field copy. -/
def copyIfContainsH (src : HV) (dst : List (String × HV)) (k : String) :
    HM (List (String × HV)) := do
  if ← pyContainsH src k then
    pure (hdSet dst k (← pyIndexH src k))
  else
    pure dst

/-- Heap version of `BaseTransformer.transform_meta` (field values are
copied by reference; the profile list is rebuilt). -/
def transform_meta_H (m : HV) : HM HV := do
  let s1 ← copyIfContainsH m [] "versionId"
  let s2 ← copyIfContainsH m s1 "lastUpdated"
  let s3 ← copyIfContainsH m s2 "source"
  let s4 ←
    if ← pyContainsH m "profile" then do
      let pv ← pyIndexH m "profile"
      let items ← pyIterH pv
      let urls ← items.mapM (fun it =>
        match it with
        | .hstr s => pure (HV.hstr (convert_profile_url s))
        | _ => (throw () : HM HV))
      let la ← halloc (.listC urls)
      pure (hdSet s3 "profile" (.addr la))
    else pure s3
  let s5 ← copyIfContainsH m s4 "tag"
  let s6 ← copyIfContainsH m s5 "security"
  (.addr ·) <$> halloc (.dictC s6)

/-- Heap version of `_transform_instantiates_canonical` (pure on the two
field lists; values copied by reference). -/
def transform_instantiates_H (r4 stu3 : List (String × HV)) : List (String × HV) :=
  match hdGet r4 "instantiatesCanonical" with
  | some v => hdSet stu3 "definition" v
  | none => stu3

/-- Heap version of `_transform_status_and_not_done` (truthiness of the
status value dereferences the heap). -/
def transform_status_H (r4 stu3 : List (String × HV)) : HM (List (String × HV)) := do
  match hdGet r4 "status" with
  | none => pure stu3
  | some v =>
      if ¬ (← hTruthy v) then pure stu3
      else if v = .hstr "not-done" then
        let s1 := hdSet (hdSet stu3 "status" (.hstr "completed")) "notDone" v
        match hdGet r4 "statusReason" with
        | some r => pure (hdSet s1 "notDoneReason" r)
        | none => pure s1
      else pure (hdSet stu3 "status" v)

/-- Heap version of `_transform_encounter_to_context`. -/
def transform_encounter_H (r4 stu3 : List (String × HV)) : List (String × HV) :=
  match hdGet r4 "encounter" with
  | some v => hdSet stu3 "context" v
  | none => stu3

/-- Heap version of the `_transform_topic_extension` loop. -/
def topicLoopH : List HV → List (String × HV) → HM (List (String × HV))
  | [], stu3 => pure stu3
  | e :: rest, stu3 =>
      match e with
      | .addr a => do
          match ← hget a with
          | .dictC ef =>
              if hdGet ef "url" = some (.hstr communication_topic_extension_url) then
                pure (match hdGet ef "value" with
                  | some v => hdSet stu3 "topic" v
                  | none =>
                    match hdGet ef "valueReference" with
                    | some v => hdSet stu3 "topic" v
                    | none =>
                      match hdGet ef "valueCodeableConcept" with
                      | some v => hdSet stu3 "topic" v
                      | none => stu3)
              else topicLoopH rest stu3
          | .listC _ => throw ()
      | _ => throw ()

/-- Heap version of `_transform_topic_extension`. -/
def transform_topic_H (r4 stu3 : List (String × HV)) : HM (List (String × HV)) :=
  match hdGet r4 "extension" with
  | none => pure stu3
  | some ev => do
      topicLoopH (← pyIterH ev) stu3

/-- Heap version of one `_transform_payload` entry (each output payload is
a freshly allocated dict; its values are copied by reference). -/
def payloadElemH (p : HV) : HM HV :=
  match p with
  | .addr a => do
      match ← hget a with
      | .dictC pf =>
          let s0 : List (String × HV) :=
            match hdGet pf "contentString" with
            | some v => [("contentString", v)]
            | none =>
              match hdGet pf "contentAttachment" with
              | some v => [("contentAttachment", v)]
              | none =>
                match hdGet pf "contentReference" with
                | some v => [("contentReference", v)]
                | none =>
                  match hdGet pf "content" with
                  | some v => [("content", v)]
                  | none => []
          let s1 := pf.foldl (fun acc kv =>
            if kv.1 = "contentString" ∨ kv.1 = "contentAttachment" ∨
                kv.1 = "contentReference" ∨ kv.1 = "content" then acc
            else hdSet acc kv.1 kv.2) s0
          (.addr ·) <$> halloc (.dictC s1)
      | .listC es => if es = [] then (.addr ·) <$> halloc (.dictC []) else throw ()
  | .hstr s => if s = "" then (.addr ·) <$> halloc (.dictC []) else throw ()
  | _ => throw ()

/-- Heap version of `_transform_payload`. -/
def transform_payload_H (r4 stu3 : List (String × HV)) : HM (List (String × HV)) :=
  match hdGet r4 "payload" with
  | none => pure stu3
  | some pv => do
      let items ← pyIterH pv
      let outs ← items.mapM payloadElemH
      if outs ≠ [] then do
        let la ← halloc (.listC outs)
        pure (hdSet stu3 "payload" (.addr la))
      else pure stu3

/-- Heap version of `_copy_direct_mappings` (reference copies: this is
where the draft STU3 tree comes to alias the input document). -/
def copyFieldsH (r4 : List (String × HV)) : List String → List (String × HV) →
    List (String × HV)
  | [], stu3 => stu3
  | k :: rest, stu3 =>
      match hdGet r4 k with
      | some v => copyFieldsH r4 rest (hdSet stu3 k v)
      | none => copyFieldsH r4 rest stu3

/-- Heap version of `transform_reference`: a freshly allocated shallow
copy without the `type` field — its values still alias the original
children. -/
def transform_reference_H (fl : List (String × HV)) : HM Nat :=
  halloc (.dictC (fl.filter (fun kv => kv.1 ≠ "type")))

/-- Heap version of `clean_references_in_object`: rebuilds dict and list
cells bottom-up, except that a dict holding both `reference` and `type`
is shallow-copied by `transform_reference_H`, leaving its children
aliased. -/
def clean_H : Nat → HV → HM HV
  | 0, _ => throw ()
  | f + 1, v =>
      match v with
      | .addr a => do
          match ← hget a with
          | .dictC fl =>
              if hdHasKey fl "reference" && hdHasKey fl "type" then
                (.addr ·) <$> transform_reference_H fl
              else do
                let fl' ← fl.mapM (fun kv => do pure (kv.1, ← clean_H f kv.2))
                (.addr ·) <$> halloc (.dictC fl')
          | .listC es => do
              let es' ← es.mapM (clean_H f)
              (.addr ·) <$> halloc (.listC es')
      | prim => pure prim

/-- Heap version of `transform_extension_urls`: survivors are shallow
copies (`ext.copy()`) whose `url` field may be overwritten and whose
nested extension list, when present, is re-assigned to a freshly built
list. -/
def transform_extension_urls_H : Nat → List HV → HM (List HV)
  | 0, _ => throw ()
  | _ + 1, [] => pure []
  | f + 1, e :: rest =>
      match e with
      | .addr a => do
          match ← hget a with
          | .dictC fl =>
              match (hdGet fl "url").getD (.hstr "") with
              | .hstr s =>
                  if is_r4_specific_extension s then
                    transform_extension_urls_H f rest
                  else do
                    let na ← halloc (.dictC fl)
                    let fl1 :=
                      if apply_global_extension_url_mappings s ≠ s then
                        hdSet fl "url" (.hstr (apply_global_extension_url_mappings s))
                      else fl
                    hset na (.dictC fl1)
                    match hdGet fl1 "extension" with
                    | some (.addr ea) => do
                        match ← hget ea with
                        | .listC nested => do
                            let t ← transform_extension_urls_H f nested
                            let la ← halloc (.listC t)
                            hset na (.dictC (hdSet fl1 "extension" (.addr la)))
                        | _ => pure ()
                    | _ => pure ()
                    pure ((.addr na) :: (← transform_extension_urls_H f rest))
              | .addr _ => throw ()
              | _ => throw ()
          | .listC _ => throw ()
      | _ => throw ()

/-- Heap version of `transform_extensions_in_object`: the branch that
keeps a non-empty rewritten extension list assigns it into the visited
dict **in place** (`obj['extension'] = transformed_extensions`), mutating
whatever cell the walk happens to be looking at — including cells still
aliased by the caller's input document. -/
def transform_extensions_H : Nat → HV → HM HV
  | 0, _ => throw ()
  | f + 1, v =>
      match v with
      | .addr a => do
          match ← hget a with
          | .dictC fl => do
              let work ←
                match hdGet fl "extension" with
                | some (.addr ea) => do
                    match ← hget ea with
                    | .listC exts => do
                        let t ← transform_extension_urls_H f exts
                        if t ≠ [] then do
                          let la ← halloc (.listC t)
                          let fl' := hdSet fl "extension" (.addr la)
                          hset a (.dictC fl')
                          pure fl'
                        else
                          pure (fl.filter (fun kv => kv.1 ≠ "extension"))
                    | _ => pure fl
                | _ => pure fl
              let out ← work.mapM (fun kv => do pure (kv.1, ← transform_extensions_H f kv.2))
              (.addr ·) <$> halloc (.dictC out)
          | .listC es => do
              let out ← es.mapM (transform_extensions_H f)
              (.addr ·) <$> halloc (.listC out)
      | prim => pure prim

/-- Heap version of the pre-`try` setup of
`CommunicationTransformer.transform_resource`. -/
def comm_setup_H (r4 : List (String × HV)) : HM (List (String × HV)) := do
  let s0 : List (String × HV) := [("resourceType", .hstr "Communication")]
  let s1 := match hdGet r4 "id" with
    | some v => hdSet s0 "id" v
    | none => s0
  let s2 ←
    match hdGet r4 "meta" with
    | some m => do pure (hdSet s1 "meta" (← transform_meta_H m))
    | none => pure s1
  let s3 := match hdGet r4 "text" with
    | some v => hdSet s2 "text" v
    | none => s2
  let s4 := match hdGet r4 "contained" with
    | some v => hdSet s3 "contained" v
    | none => s3
  pure s4

/-- Heap version of the `try` body of
`CommunicationTransformer.transform_resource`. -/
def comm_pipeline_H (fuel : Nat) (r4 stu3 : List (String × HV)) : HM HV := do
  let s1 := transform_instantiates_H r4 stu3
  let s2 ← transform_status_H r4 s1
  let s3 := transform_encounter_H r4 s2
  let s4 ← transform_topic_H r4 s3
  let s5 ← transform_payload_H r4 s4
  let s6 := copyFieldsH r4 communication_direct_fields s5
  let sa ← halloc (.dictC s6)
  let cleaned ← clean_H fuel (.addr sa)
  transform_extensions_H fuel cleaned

/-- Heap version of `CommunicationTransformer.transform_resource`: the
`try` turns pipeline exceptions into `None`, but any mutation already
performed stays in the heap. -/
def comm_transform_resource_H (fuel : Nat) (doc : HV) : HM (Option HV) :=
  match doc with
  | .addr a => do
      match ← hget a with
      | .dictC r4 =>
          if hdGet r4 "resourceType" ≠ some (.hstr "Communication") then pure none
          else do
            let base ← comm_setup_H r4
            tryCatch (do pure (some (← comm_pipeline_H fuel r4 base)))
              (fun _ => pure none)
      | .listC _ => throw ()
  | _ => throw ()

mutual
/-- Load a document value into the heap (JSON parsing allocates a fresh
cell per dict and list). -/
def encodeJ : JVal → HM HV
  | .null => pure .hnull
  | .bool b => pure (.hbool b)
  | .num n => pure (.hnum n)
  | .str s => pure (.hstr s)
  | .arr l => do
      let es ← encodeArr l
      (.addr ·) <$> halloc (.listC es)
  | .obj f => do
      let fl ← encodeObj f
      (.addr ·) <$> halloc (.dictC fl)

/-- Element-wise heap loading. -/
def encodeArr : JArr → HM (List HV)
  | .nil => pure []
  | .cons v rest => do
      pure ((← encodeJ v) :: (← encodeArr rest))

/-- Field-wise heap loading. -/
def encodeObj : JObj → HM (List (String × HV))
  | .nil => pure []
  | .cons k v rest => do
      pure ((k, ← encodeJ v) :: (← encodeObj rest))
end

/-- Read a heap value back into a document value (fuelled; the heaps this
model builds are acyclic). -/
def decodeHV : Nat → Heap → HV → Option JVal
  | 0, _, _ => none
  | _ + 1, _, .hnull => some .null
  | _ + 1, _, .hbool b => some (.bool b)
  | _ + 1, _, .hnum n => some (.num n)
  | _ + 1, _, .hstr s => some (.str s)
  | f + 1, h, .addr a =>
      match h.get? a with
      | some (.dictC fl) =>
          (fl.mapM (fun kv => (decodeHV f h kv.2).map (fun w => (kv.1, w)))).map
            (fun l => JVal.obj (jo l))
      | some (.listC es) =>
          (es.mapM (decodeHV f h)).map (fun l => JVal.arr (ja l))
      | none => none

/-! ## Helper lemmas -/

/-- List-style induction principle for `JObj` (treating values as opaque). -/
theorem JObj.fieldInduction {P : JObj → Prop} (f : JObj) (hnil : P .nil)
    (hcons : ∀ k v rest, P rest → P (.cons k v rest)) : P f :=
  match f with
  | .nil => hnil
  | .cons k v rest => hcons k v rest (JObj.fieldInduction rest hnil hcons)

/-- List-style induction principle for `JArr` (treating values as opaque). -/
theorem JArr.elemInduction {P : JArr → Prop} (l : JArr) (hnil : P .nil)
    (hcons : ∀ v rest, P rest → P (.cons v rest)) : P l :=
  match l with
  | .nil => hnil
  | .cons v rest => hcons v rest (JArr.elemInduction rest hnil hcons)

theorem JObj.get_set_self (f : JObj) (k : String) (v : JVal) :
    (f.set k v).get k = some v := by
  induction f using JObj.fieldInduction with
  | hnil => simp [JObj.set, JObj.get]
  | hcons k' v' rest ih =>
      by_cases h : k' = k
      · simp [JObj.set, JObj.get, h]
      · simp [JObj.set, JObj.get, h, ih]

theorem JObj.get_set_other (f : JObj) {k k' : String} (h : k ≠ k') (v : JVal) :
    (f.set k v).get k' = f.get k' := by
  induction f using JObj.fieldInduction with
  | hnil => simp [JObj.set, JObj.get, h]
  | hcons k'' v'' rest ih =>
      by_cases h2 : k'' = k
      · simp [JObj.set, JObj.get, h2, h, fun hc : k'' = k' => h (h2 ▸ hc ▸ rfl)]
      · simp [JObj.set, JObj.get, h2, ih]

theorem JObj.get_remove_self (f : JObj) (k : String) :
    (f.remove k).get k = none := by
  induction f using JObj.fieldInduction with
  | hnil => simp [JObj.remove, JObj.get]
  | hcons k' v' rest ih =>
      by_cases h : k' = k
      · simp [JObj.remove, h, ih]
      · simp [JObj.remove, JObj.get, h, ih]

theorem JObj.hasKey_of_get {f : JObj} {k : String} {v : JVal} (h : f.get k = some v) :
    f.hasKey k = true := by
  induction f using JObj.fieldInduction with
  | hnil => simp [JObj.get] at h
  | hcons k' v' rest ih =>
      by_cases h2 : k' = k
      · simp [JObj.hasKey, h2]
      · simp [JObj.get, h2] at h
        simp [JObj.hasKey, h2, ih h]

theorem JObj.hasKey_iff_get {f : JObj} {k : String} :
    f.hasKey k = true ↔ ∃ v, f.get k = some v := by
  induction f using JObj.fieldInduction with
  | hnil => simp [JObj.hasKey, JObj.get]
  | hcons k' v' rest ih =>
      by_cases h2 : k' = k
      · simp [JObj.hasKey, JObj.get, h2]
      · simp [JObj.hasKey, JObj.get, h2, ih]

theorem ja_toList (l : List JVal) : (ja l).toList = l := by
  induction l with
  | nil => rfl
  | cons x rest ih => simp [ja, JArr.toList, ih]

theorem JArr.length_pos_ne_nil {a : JArr} (h : a ≠ .nil) : 0 < a.length := by
  cases a with
  | nil => exact absurd rfl h
  | cons v rest => simp [JArr.length]

theorem JArr.ne_nil_of_length_pos {a : JArr} (h : 0 < a.length) : a ≠ .nil := by
  cases a with
  | nil => simp [JArr.length] at h
  | cons v rest => intro hc; cases hc

theorem except_bind_ok {α β : Type} {m : Except Unit α} {f : α → Except Unit β} {b : β}
    (h : m.bind f = .ok b) : ∃ a, m = .ok a ∧ f a = .ok b := by
  cases m with
  | ok a => exact ⟨a, rfl, h⟩
  | error e => exact absurd h (by simp [Except.bind])

/-! ## Claim theorems -/

/-- C1 counterexample: resolving `PractitionerRole/99` against a
non-empty index that does not contain id `99` does **not** return the
node unchanged — the practitionerrole-reference extension is still
attached (and no failure counter exists in the source, which only logs a
warning). -/
theorem c1_counterexample :
    transform_practitioner_role_reference (jo [("reference", .str "PractitionerRole/99")])
        (some [(.str "1", .obj (jo [("practitioner",
          .obj (jo [("reference", .str "Practitioner/1")]))]))]) =
      .ok (.obj (jo [("reference", .str "PractitionerRole/99"),
        ("extension", .arr (ja [.obj (jo [("url", .str practitionerrole_reference_url),
          ("valueReference", .obj (jo [("reference", .str "PractitionerRole/99")]))])]))])) ∧
    JVal.obj (jo [("reference", .str "PractitionerRole/99"),
        ("extension", .arr (ja [.obj (jo [("url", .str practitionerrole_reference_url),
          ("valueReference", .obj (jo [("reference", .str "PractitionerRole/99")]))])]))]) ≠
      JVal.obj (jo [("reference", .str "PractitionerRole/99")]) := by
  constructor
  · rfl
  · decide

/-- C1 (amended): on a resolution miss — id absent from a non-empty
index, or the indexed role present but without a `practitioner` field —
the node keeps the original role reference (and display, when truthy),
but the practitionerrole-reference extension is still attached, holding
the original reference (and display); no failure counter is incremented
(the source only logs a warning). -/
theorem c1_miss_keeps_reference_and_adds_extension
    (ref d : String) (idx : PRIndex) (role : JObj)
    (h1 : pyStartsWith ref "PractitionerRole/" = true)
    (h2 : ref ≠ "")
    (h4 : idx ≠ []) :
    (idxGet idx (.str (pyReplace ref "PractitionerRole/" "")) = none →
      transform_practitioner_role_reference (jo [("reference", .str ref)]) (some idx) =
        .ok (.obj (jo [("reference", .str ref),
          ("extension", .arr (ja [.obj (jo [("url", .str practitionerrole_reference_url),
            ("valueReference", .obj (jo [("reference", .str ref)]))])]))])) ∧
      (d ≠ "" →
        transform_practitioner_role_reference
            (jo [("reference", .str ref), ("display", .str d)]) (some idx) =
          .ok (.obj (jo [("reference", .str ref), ("display", .str d),
            ("extension", .arr (ja [.obj (jo [("url", .str practitionerrole_reference_url),
              ("valueReference", .obj (jo [("reference", .str ref),
                ("display", .str d)]))])]))])))) ∧
    (idxGet idx (.str (pyReplace ref "PractitionerRole/" "")) = some (.obj role) →
      role ≠ .nil →
      role.hasKey "practitioner" = false →
      transform_practitioner_role_reference (jo [("reference", .str ref)]) (some idx) =
        .ok (.obj (jo [("reference", .str ref),
          ("extension", .arr (ja [.obj (jo [("url", .str practitionerrole_reference_url),
            ("valueReference", .obj (jo [("reference", .str ref)]))])]))]))) := by
  refine ⟨fun hmiss => ⟨?_, fun hd => ?_⟩, fun hrole hne hnop => ?_⟩
  · simp [transform_practitioner_role_reference, isPractitionerRoleRefCond,
      resolvePractitioner, jo, JObj.get, JObj.set, h1, h2, h4, hmiss, jTruthy,
      Bind.bind, Except.bind, Pure.pure, Except.pure, ja, practitionerrole_reference_url]
  · simp [transform_practitioner_role_reference, isPractitionerRoleRefCond,
      resolvePractitioner, jo, JObj.get, JObj.set, h1, h2, h4, hmiss, hd, jTruthy,
      Bind.bind, Except.bind, Pure.pure, Except.pure, ja, practitionerrole_reference_url]
  · simp [transform_practitioner_role_reference, isPractitionerRoleRefCond,
      resolvePractitioner, jo, JObj.get, JObj.set, h1, h2, h4, hrole, hne, hnop, jTruthy,
      pyContains, Bind.bind, Except.bind, Pure.pure, Except.pure, ja, practitionerrole_reference_url]

/-- C1 witness: the amended behaviour at a concrete miss. -/
theorem c1_witness :
    transform_practitioner_role_reference (jo [("reference", .str "PractitionerRole/99")])
        (some [(.str "7", .null)]) =
      .ok (.obj (jo [("reference", .str "PractitionerRole/99"),
        ("extension", .arr (ja [.obj (jo [("url", .str practitionerrole_reference_url),
          ("valueReference", .obj (jo [("reference", .str "PractitionerRole/99")]))])]))])) :=
  ((c1_miss_keeps_reference_and_adds_extension "PractitionerRole/99" "x"
      [(.str "7", .null)] .nil (by decide) (by decide) (by decide)).1
    (by decide)).1

/-- C3: when the index maps the extracted role id to a truthy role
document whose `practitioner` field carries a truthy `reference` (and a
truthy `display`), resolving a bare role reference node rewrites
`reference`/`display` to the practitioner's values and attaches the
single-element practitionerrole-reference extension holding the original
role reference. -/
theorem c3_resolution_rewrites_reference
    (ref pRef pDisp : String) (idx : PRIndex) (role pf : JObj)
    (h1 : pyStartsWith ref "PractitionerRole/" = true)
    (h2 : ref ≠ "")
    (h3 : idxGet idx (.str (pyReplace ref "PractitionerRole/" "")) = some (.obj role))
    (h4 : role ≠ .nil)
    (h5 : role.get "practitioner" = some (.obj pf))
    (h6 : pf.get "reference" = some (.str pRef))
    (h7 : pRef ≠ "")
    (h8 : pf.get "display" = some (.str pDisp))
    (h9 : pDisp ≠ "") :
    transform_practitioner_role_reference (jo [("reference", .str ref)]) (some idx) =
      .ok (.obj (jo [("reference", .str pRef), ("display", .str pDisp),
        ("extension", .arr (ja [.obj (jo [("url", .str practitionerrole_reference_url),
          ("valueReference", .obj (jo [("reference", .str ref)]))])]))])) := by
  have hidx : idx ≠ [] := by
    intro hc; rw [hc] at h3; simp [idxGet] at h3
  have hkey : role.hasKey "practitioner" = true := JObj.hasKey_of_get h5
  simp [transform_practitioner_role_reference, isPractitionerRoleRefCond,
    resolvePractitioner, jo, JObj.get, JObj.set, h1, h2, h3, h4, h5, h6, h7, h8, h9,
    hidx, hkey, jTruthy, pyContains, pyIndexStr,
    Bind.bind, Except.bind, Pure.pure, Except.pure, ja, practitionerrole_reference_url]

/-- C3 witness: the spec's concrete resolution example. -/
theorem c3_witness :
    transform_practitioner_role_reference (jo [("reference", .str "PractitionerRole/42")])
        (some [(.str "42", .obj (jo [("practitioner",
          .obj (jo [("reference", .str "Practitioner/7"), ("display", .str "Dr. A")]))]))]) =
      .ok (.obj (jo [("reference", .str "Practitioner/7"), ("display", .str "Dr. A"),
        ("extension", .arr (ja [.obj (jo [("url", .str practitionerrole_reference_url),
          ("valueReference", .obj (jo [("reference", .str "PractitionerRole/42")]))])]))])) :=
  c3_resolution_rewrites_reference "PractitionerRole/42" "Practitioner/7" "Dr. A"
    [(.str "42", .obj (jo [("practitioner",
      .obj (jo [("reference", .str "Practitioner/7"), ("display", .str "Dr. A")]))]))]
    (jo [("practitioner", .obj (jo [("reference", .str "Practitioner/7"),
      ("display", .str "Dr. A")]))])
    (jo [("reference", .str "Practitioner/7"), ("display", .str "Dr. A")])
    (by decide) (by decide) (by decide) (by decide) (by decide) (by decide)
    (by decide) (by decide) (by decide)

mutual
/-- Reference-cleaning invariant: no object node anywhere in the tree
carries both a `reference` and a `type` key. -/
def noRefType : JVal → Bool
  | .obj f => !(f.hasKey "reference" && f.hasKey "type") && noRefTypeObj f
  | .arr l => noRefTypeArr l
  | _ => true

/-- Field-wise recursion of `noRefType`. -/
def noRefTypeObj : JObj → Bool
  | .nil => true
  | .cons _ v rest => noRefType v && noRefTypeObj rest

/-- Element-wise recursion of `noRefType`. -/
def noRefTypeArr : JArr → Bool
  | .nil => true
  | .cons v rest => noRefType v && noRefTypeArr rest
end

mutual
/-- An input is safe for the cleaning pass when no node carrying both
`reference` and `type` keys has a strict descendant that also carries
both (the pass does not recurse into the children of a node it classifies
as a Reference). -/
def cleanSafeInput : JVal → Bool
  | .obj f =>
      if f.hasKey "reference" && f.hasKey "type" then noRefTypeObj f
      else cleanSafeObj f
  | .arr l => cleanSafeArr l
  | _ => true

/-- Field-wise recursion of `cleanSafeInput`. -/
def cleanSafeObj : JObj → Bool
  | .nil => true
  | .cons _ v rest => cleanSafeInput v && cleanSafeObj rest

/-- Element-wise recursion of `cleanSafeInput`. -/
def cleanSafeArr : JArr → Bool
  | .nil => true
  | .cons v rest => cleanSafeInput v && cleanSafeArr rest
end

/-- C4 counterexample: a reference node nested inside another reference
node keeps its `type` key — the pass replaces a both-keys node by a
shallow `transform_reference` copy and does not recurse into its
children, so the cleaned output still violates the claimed invariant. -/
theorem c4_counterexample :
    clean_references_in_object (.obj (jo [("reference", .str "X"), ("type", .str "T"),
        ("extension", .arr (ja [.obj (jo [("valueReference",
          .obj (jo [("reference", .str "Y"), ("type", .str "U")]))])]))])) =
      .obj (jo [("reference", .str "X"),
        ("extension", .arr (ja [.obj (jo [("valueReference",
          .obj (jo [("reference", .str "Y"), ("type", .str "U")]))])]))]) ∧
    noRefType (.obj (jo [("reference", .str "X"),
        ("extension", .arr (ja [.obj (jo [("valueReference",
          .obj (jo [("reference", .str "Y"), ("type", .str "U")]))])]))])) = false := by
  constructor
  · rfl
  · decide

/-- Removing a key preserves the value-wise invariant. -/
theorem noRefTypeObj_remove {f : JObj} (k : String) (h : noRefTypeObj f = true) :
    noRefTypeObj (f.remove k) = true := by
  induction f using JObj.fieldInduction with
  | hnil => simpa [JObj.remove] using h
  | hcons k' v rest ih =>
      simp [noRefTypeObj] at h
      by_cases h2 : k' = k
      · simp [JObj.remove, h2, ih h.2]
      · simp [JObj.remove, h2, noRefTypeObj, h.1, ih h.2]

/-- `hasKey` is preserved by the field-wise cleaning recursion. -/
theorem hasKey_cleanObjFields (f : JObj) (k : String) :
    (cleanObjFields f).hasKey k = f.hasKey k := by
  induction f using JObj.fieldInduction with
  | hnil => rfl
  | hcons k' v rest ih => simp [cleanObjFields, JObj.hasKey, ih]

/-- `hasKey` after key removal. -/
theorem hasKey_remove (f : JObj) (k k' : String) :
    (f.remove k).hasKey k' = (f.hasKey k' && !(k = k' : Bool)) := by
  induction f using JObj.fieldInduction with
  | hnil => simp [JObj.remove, JObj.hasKey]
  | hcons k'' v rest ih =>
      by_cases h2 : k'' = k
      · subst h2
        by_cases h3 : k'' = k'
        · subst h3; simp [JObj.remove, JObj.hasKey, ih]
        · simp [JObj.remove, JObj.hasKey, h3, ih]
      · by_cases h3 : k'' = k'
        · subst h3
          have : ¬ (k = k'') := fun hc => h2 hc.symm
          simp [JObj.remove, h2, JObj.hasKey, this]
        · simp [JObj.remove, h2, JObj.hasKey, h3, ih]

mutual
/-- Soundness of the safety condition: cleaning a safe input yields a
tree in which no object node carries both `reference` and `type`. -/
theorem cleanSafe_sound : ∀ v, cleanSafeInput v = true →
    noRefType (clean_references_in_object v) = true
  | .obj f, h => by
      by_cases hb : f.hasKey "reference" && f.hasKey "type"
      · simp [cleanSafeInput, hb] at h
        simp only [clean_references_in_object, hb, if_pos]
        have hbt : f.hasKey "type" = true := by
          rcases Bool.and_eq_true .. |>.mp hb with ⟨_, h2⟩; exact h2
        simp [noRefType, transform_reference, hasKey_remove, noRefTypeObj_remove _ h]
      · simp [cleanSafeInput, hb] at h
        simp only [clean_references_in_object, hb, if_neg, Bool.not_eq_true]
        have hk : ∀ k, (cleanObjFields f).hasKey k = f.hasKey k := hasKey_cleanObjFields f
        simp [noRefType, hk, cleanSafe_soundObj f h]
        rcases Bool.eq_false_iff.mpr hb |> Bool.and_eq_false_iff.mp with h1 | h1
        · exact Or.inl h1
        · exact Or.inr h1
  | .arr l, h => by
      simp [cleanSafeInput] at h
      simp [clean_references_in_object, noRefType, cleanSafe_soundArr l h]
  | .null, _ => rfl
  | .bool _, _ => rfl
  | .num _, _ => rfl
  | .str _, _ => rfl

/-- Field-wise part of `cleanSafe_sound`. -/
theorem cleanSafe_soundObj : ∀ f, cleanSafeObj f = true →
    noRefTypeObj (cleanObjFields f) = true
  | .nil, _ => rfl
  | .cons k v rest, h => by
      simp [cleanSafeObj] at h
      simp [cleanObjFields, noRefTypeObj, cleanSafe_sound v h.1, cleanSafe_soundObj rest h.2]

/-- Element-wise part of `cleanSafe_sound`. -/
theorem cleanSafe_soundArr : ∀ l, cleanSafeArr l = true →
    noRefTypeArr (cleanArrElems l) = true
  | .nil, _ => rfl
  | .cons v rest, h => by
      simp [cleanSafeArr] at h
      simp [cleanArrElems, noRefTypeArr, cleanSafe_sound v h.1, cleanSafe_soundArr rest h.2]
end

/-- C4 (amended): after the cleaning pass, no object node at any depth
carries both `reference` and `type`, **provided** no both-keys node of
the input strictly contains another both-keys node; the walk recurses
into all children of non-Reference nodes, but returns the children of a
node it classifies as a Reference unvisited. -/
theorem c4_clean_references_no_type_when_not_nested (v : JVal)
    (h : cleanSafeInput v = true) :
    noRefType (clean_references_in_object v) = true :=
  cleanSafe_sound v h

/-- C4 witness: the amended invariant on a concrete document with a
reference node below a non-reference parent. -/
theorem c4_witness :
    cleanSafeInput (.obj (jo [("subject",
        .obj (jo [("reference", .str "Patient/1"), ("type", .str "Patient")]))])) = true ∧
    noRefType (clean_references_in_object (.obj (jo [("subject",
        .obj (jo [("reference", .str "Patient/1"), ("type", .str "Patient")]))]))) = true :=
  ⟨by decide,
    c4_clean_references_no_type_when_not_nested _ (by decide)⟩

/-- The C5 failing input: a Communication whose `subject` is a reference
node (with `reference` and `type`) carrying a nested object with a
rewritable extension. -/
def c5_input : JVal :=
  .obj (jo [("resourceType", .str "Communication"), ("status", .str "in-progress"),
    ("subject", .obj (jo [("reference", .str "Patient/1"), ("type", .str "Patient"),
      ("extra", .obj (jo [("extension", .arr (ja [.obj (jo
        [("url", .str "http://nictiz.nl/fhir/StructureDefinition/ext-CodeSpecification")])]))]))]))])

/-- What the caller's input document looks like after the transform: the
nested extension URL has been rewritten **inside the input**. -/
def c5_input_after : JVal :=
  .obj (jo [("resourceType", .str "Communication"), ("status", .str "in-progress"),
    ("subject", .obj (jo [("reference", .str "Patient/1"), ("type", .str "Patient"),
      ("extra", .obj (jo [("extension", .arr (ja [.obj (jo
        [("url", .str "http://nictiz.nl/fhir/StructureDefinition/code-specification")])]))]))]))])

/-- Load `c5_input` into an empty heap, read it back, run the heap-model
Communication transform on it, and read the caller's document back again:
the pair of observations (before, after). -/
def c5_observe : Option JVal × Option JVal :=
  let m : HM (Option JVal × Option JVal) := do
    let root ← encodeJ c5_input
    let h0 ← get
    let before := decodeHV 30 h0 root
    let _ ← comm_transform_resource_H 40 root
    let h1 ← get
    pure (before, decodeHV 30 h1 root)
  match m.run [] with
  | (.ok p, _) => p
  | (.error _, _) => (none, none)

/-- C5: transforming the Communication document mutates the caller's
input in place — through the aliasing introduced by the direct field
copies and the shallow `transform_reference` copy, the in-place
`obj['extension'] = transformed_extensions` assignment of the extension
pass rewrites an extension URL inside the input document, observably to
the caller. -/
theorem c5_transform_mutates_aliased_input :
    c5_observe = (some c5_input, some c5_input_after) ∧ c5_input ≠ c5_input_after :=
  ⟨rfl, by decide⟩

/-- C6 counterexample: a Communication whose `status` is the empty string
(a status value other than `not-done`) is **not** copied unchanged — the
falsy status is dropped and the transformed document has no `status`
field at all. -/
theorem c6_counterexample :
    comm_transform_resource 40
        (.obj (jo [("resourceType", .str "Communication"), ("status", .str "")])) =
      .ok (some (.obj (jo [("resourceType", .str "Communication")]))) ∧
    (jo [("resourceType", .str "Communication")]).get "status" ≠ some (.str "") := by
  constructor
  · rfl
  · decide

/-- C6 (amended): `_transform_status_and_not_done` maps a `not-done`
status with a `statusReason` to `status = "completed"`,
`notDone = "not-done"`, `notDoneReason` equal to the reason, leaving all
other keys untouched; every other **truthy** status value is copied
unchanged (and nothing else changes); a falsy status (such as the empty
string) is dropped entirely. -/
theorem c6_status_not_done_mapping (r4 stu3 : JObj) (R v : JVal) :
    (r4.get "status" = some (.str "not-done") → r4.get "statusReason" = some R →
      (transform_status_and_not_done r4 stu3).get "status" = some (.str "completed") ∧
      (transform_status_and_not_done r4 stu3).get "notDone" = some (.str "not-done") ∧
      (transform_status_and_not_done r4 stu3).get "notDoneReason" = some R ∧
      (∀ k, k ≠ "status" → k ≠ "notDone" → k ≠ "notDoneReason" →
        (transform_status_and_not_done r4 stu3).get k = stu3.get k)) ∧
    (r4.get "status" = some v → jTruthy v = true → v ≠ .str "not-done" →
      transform_status_and_not_done r4 stu3 = stu3.set "status" v) ∧
    (r4.get "status" = some v → jTruthy v = false →
      transform_status_and_not_done r4 stu3 = stu3) := by
  refine ⟨fun hs hr => ?_, fun hs ht hne => ?_, fun hs ht => ?_⟩
  · simp only [transform_status_and_not_done, hs, hr]
    have ht : jTruthy (.str "not-done") = true := by decide
    rw [ht]
    simp only [not_true, Bool.not_true, reduceIte, if_pos rfl]
    refine ⟨?_, ?_, ?_, ?_⟩
    · rw [JObj.get_set_other _ (by decide) _, JObj.get_set_other _ (by decide) _,
        JObj.get_set_self]
    · rw [JObj.get_set_other _ (by decide) _, JObj.get_set_self]
    · rw [JObj.get_set_self]
    · intro k h1 h2 h3
      rw [JObj.get_set_other _ (fun hc => h3 hc.symm) _,
        JObj.get_set_other _ (fun hc => h2 hc.symm) _,
        JObj.get_set_other _ (fun hc => h1 hc.symm) _]
  · simp [transform_status_and_not_done, hs, ht, hne]
  · simp [transform_status_and_not_done, hs, ht]

/-- C6 witness: the amended mapping at a concrete not-done document. -/
theorem c6_witness :
    (transform_status_and_not_done
        (jo [("status", .str "not-done"), ("statusReason", .str "refused")])
        (jo [("resourceType", .str "Communication")])).get "notDoneReason" =
      some (.str "refused") ∧
    transform_status_and_not_done (jo [("status", .str "in-progress")])
        (jo [("resourceType", .str "Communication")]) =
      (jo [("resourceType", .str "Communication")]).set "status" (.str "in-progress") :=
  ⟨((c6_status_not_done_mapping
      (jo [("status", .str "not-done"), ("statusReason", .str "refused")])
      (jo [("resourceType", .str "Communication")]) (.str "refused") .null).1
      (by decide) (by decide)).2.2.1,
    (c6_status_not_done_mapping (jo [("status", .str "in-progress")])
      (jo [("resourceType", .str "Communication")]) .null (.str "in-progress")).2.1
      (by decide) (by decide) (by decide)⟩

/-- Building the data-loss message succeeds when every discarded element
is a dict (`rel.get` is only called on dict elements). -/
theorem lossCheck_ok (l : List JVal) (h : ∀ x ∈ l, ∃ f, x = JVal.obj f) :
    lossMessageCheck l = Except.ok () := by
  induction l with
  | nil => rfl
  | cons x rest ih =>
      obtain ⟨f, hf⟩ := h x (by simp)
      subst hf
      simp [lossMessageCheck, ih (fun y hy => h y (by simp [hy]))]

/-- C7: a multi-element `relationship` list collapses to its first
element with the discarded tail reported as the data loss; a
single-element list collapses silently.  Stated through
`_copy_direct_mappings`, which writes the collapsed value into the
transformed document. -/
theorem c7_relationship_cardinality_collapse (r4 stu3 : JObj) (A B : JVal)
    (rest : List JVal) :
    (r4.get "relationship" = some (.arr (ja (A :: B :: rest))) →
      (∀ x ∈ B :: rest, ∃ f, x = JVal.obj f) →
      ∃ s', rp_copy_direct_mappings r4 stu3 = .ok (s', B :: rest) ∧
        s'.get "relationship" = some A) ∧
    (r4.get "relationship" = some (.arr (ja [A])) →
      ∃ s', rp_copy_direct_mappings r4 stu3 = .ok (s', []) ∧
        s'.get "relationship" = some A) := by
  constructor
  · intro hrel hobjs
    have hu := lossCheck_ok (B :: rest) hobjs
    refine ⟨(copyFields r4 related_person_direct_fields stu3).set "relationship" A,
      ?_, JObj.get_set_self _ _ _⟩
    simp [rp_copy_direct_mappings, hrel, rp_transform_relationship, ja_toList,
      Bind.bind, Except.bind, Pure.pure, Except.pure, hu]
  · intro hrel
    refine ⟨(copyFields r4 related_person_direct_fields stu3).set "relationship" A,
      ?_, JObj.get_set_self _ _ _⟩
    simp [rp_copy_direct_mappings, hrel, rp_transform_relationship, ja_toList,
      Bind.bind, Except.bind, Pure.pure, Except.pure]

/-- C7 witness: the collapse at a concrete three-element relationship and
at a concrete single-element relationship. -/
theorem c7_witness :
    (∃ s', rp_copy_direct_mappings
        (jo [("relationship", .arr (ja [.obj (jo [("text", .str "A")]),
          .obj (jo [("text", .str "B")]), .obj (jo [("text", .str "C")])]))]) .nil =
      .ok (s', [.obj (jo [("text", .str "B")]), .obj (jo [("text", .str "C")])]) ∧
      s'.get "relationship" = some (.obj (jo [("text", .str "A")]))) ∧
    (∃ s', rp_copy_direct_mappings
        (jo [("relationship", .arr (ja [.obj (jo [("text", .str "A")])]))]) .nil =
      .ok (s', []) ∧
      s'.get "relationship" = some (.obj (jo [("text", .str "A")]))) :=
  ⟨(c7_relationship_cardinality_collapse
      (jo [("relationship", .arr (ja [.obj (jo [("text", .str "A")]),
        .obj (jo [("text", .str "B")]), .obj (jo [("text", .str "C")])]))]) .nil
      (.obj (jo [("text", .str "A")])) (.obj (jo [("text", .str "B")]))
      [.obj (jo [("text", .str "C")])]).1 (by decide)
      (by intro x hx
          simp at hx
          rcases hx with h | h
          · exact ⟨jo [("text", .str "B")], h⟩
          · exact ⟨jo [("text", .str "C")], h⟩),
    (c7_relationship_cardinality_collapse
      (jo [("relationship", .arr (ja [.obj (jo [("text", .str "A")])]))]) .nil
      (.obj (jo [("text", .str "A")])) .null []).2 (by decide)⟩

/-- Accumulate a list of outcomes into the running counters. -/
def accumStats (s : RunStats) (l : List Outcome) : RunStats := l.foldl bumpStats s

/-- The `transform_directories` loop is the map of its per-document body
over the pooled file list, with the counters accumulated alongside. -/
theorem orch_fold_eq (g : JVal → Outcome) (docs : List JVal) :
    ∀ (s : RunStats) (acc : List Outcome),
      docs.foldl (fun a doc =>
        let o := g doc
        (bumpStats a.1 o, a.2 ++ [o])) (s, acc) =
      (accumStats s (docs.map g), acc ++ docs.map g) := by
  induction docs with
  | nil => intro s acc; simp [accumStats]
  | cons d rest ih =>
      intro s acc
      simp only [List.foldl_cons, List.map_cons, ih]
      simp [accumStats]

/-- `transform_directories`, unrolled: Phase 1 builds the index over the
flattened batch once, and every document is then transformed against that
same pooled index. -/
theorem orch_transform_directories_eq (reg : Registry) (filt : Option (List String))
    (dirs : List (List JVal)) :
    orch_transform_directories reg filt dirs =
      (accumStats ⟨0, 0, 0⟩ (dirs.flatten.map (orch_process_one reg filt
          (some (collect_practitioner_role_resources_from_dirs dirs)))),
        dirs.flatten.map (orch_process_one reg filt
          (some (collect_practitioner_role_resources_from_dirs dirs)))) := by
  simp only [orch_transform_directories]
  rw [orch_fold_eq]
  simp

/-- Phase-2 resolution of the representative per-type output used in the
cross-directory scenario: the single reference node deep in the draft is
rewritten to the practitioner held by the indexed role. -/
theorem c2_process_helper (rt2 ref i pRef : String) (roleDoc : JVal)
    (h1 : pyStartsWith ref "PractitionerRole/" = true)
    (h2 : ref ≠ "")
    (h3 : pyReplace ref "PractitionerRole/" "" = i)
    (hrd : roleDoc = .obj (jo [("resourceType", .str "PractitionerRole"),
      ("id", .str i), ("practitioner", .obj (jo [("reference", .str pRef)]))]))
    (hpref : pRef ≠ "") :
    process_practitioner_role_references_in_object
        (.obj (jo [("resourceType", .str rt2),
          ("performer", .obj (jo [("reference", .str ref)]))]))
        (some [(.str i, roleDoc)]) =
      .ok (.obj (jo [("resourceType", .str rt2),
        ("performer", .obj (jo [("reference", .str pRef),
          ("extension", .arr (ja [.obj (jo [("url", .str practitionerrole_reference_url),
            ("valueReference", .obj (jo [("reference", .str ref)]))])]))]))])) := by
  subst hrd
  simp [process_practitioner_role_references_in_object, processPRRFields, jo,
    JObj.hasKey, JObj.get, JObj.set, h1, h2, h3, hpref, jTruthy, idxGet, pyContains,
    pyIndexStr, transform_practitioner_role_reference, isPractitionerRoleRefCond,
    resolvePractitioner, Bind.bind, Except.bind, Pure.pure, Except.pure, ja,
    practitionerrole_reference_url]

/-- C2: with the referencing document in one input directory and the
referenced PractitionerRole in another, the Phase-1 index is built from
both directories before the per-document loop runs — the collected index
contains the cross-directory role, every document of the batch is
transformed against that same pooled index, and the document's role
reference resolves to the role's practitioner. -/
theorem c2_barrier_and_cross_directory_resolution
    (reg : Registry) (f : TransformerFn) (docAf : JObj) (rt rt2 ref i pRef : String)
    (hrt : docAf.get "resourceType" = some (.str rt))
    (hden : rt ∉ denied_resource_types)
    (hnpr : rt ≠ "PractitionerRole")
    (hreg : reg rt = some f)
    (hout : f (.obj docAf) = .ok (some (.obj (jo [("resourceType", .str rt2),
      ("performer", .obj (jo [("reference", .str ref)]))]))))
    (h1 : pyStartsWith ref "PractitionerRole/" = true)
    (h2 : ref ≠ "")
    (h3 : pyReplace ref "PractitionerRole/" "" = i)
    (h4 : i ≠ "")
    (hpref : pRef ≠ "") :
    collect_practitioner_role_resources_from_dirs
        [[.obj docAf], [.obj (jo [("resourceType", .str "PractitionerRole"),
          ("id", .str i), ("practitioner", .obj (jo [("reference", .str pRef)]))])]] =
      [(.str i, .obj (jo [("resourceType", .str "PractitionerRole"),
        ("id", .str i), ("practitioner", .obj (jo [("reference", .str pRef)]))]))] ∧
    (orch_transform_directories reg none
        [[.obj docAf], [.obj (jo [("resourceType", .str "PractitionerRole"),
          ("id", .str i), ("practitioner", .obj (jo [("reference", .str pRef)]))])]]).2 =
      [.written (.obj (jo [("resourceType", .str rt2),
          ("performer", .obj (jo [("reference", .str pRef),
            ("extension", .arr (ja [.obj (jo
              [("url", .str practitionerrole_reference_url),
               ("valueReference", .obj (jo [("reference", .str ref)]))])]))]))])),
        orch_process_one reg none
          (some [(.str i, .obj (jo [("resourceType", .str "PractitionerRole"),
            ("id", .str i), ("practitioner", .obj (jo [("reference", .str pRef)]))]))])
          (.obj (jo [("resourceType", .str "PractitionerRole"),
            ("id", .str i), ("practitioner", .obj (jo [("reference", .str pRef)]))]))] := by
  have hcoll : collect_practitioner_role_resources_from_dirs
      [[.obj docAf], [.obj (jo [("resourceType", .str "PractitionerRole"),
        ("id", .str i), ("practitioner", .obj (jo [("reference", .str pRef)]))])]] =
      [(.str i, .obj (jo [("resourceType", .str "PractitionerRole"),
        ("id", .str i), ("practitioner", .obj (jo [("reference", .str pRef)]))]))] := by
    simp [collect_practitioner_role_resources_from_dirs, collect_practitioner_role_step,
      jo, JObj.get, hrt, hnpr, jTruthy, h4, idxSet]
  refine ⟨hcoll, ?_⟩
  rw [orch_transform_directories_eq, hcoll]
  simp only [List.flatten, List.map, List.append_nil, List.cons_append, List.nil_append,
    List.singleton_append]
  congr 1
  · show orch_process_one reg none _ (.obj docAf) = _
    have hproc := c2_process_helper rt2 ref i pRef _ h1 h2 h3 rfl hpref
    simp only [jo, ja] at hproc
    simp [orch_process_one, orch_transform_file, orch_transform_resource, rtIsDenied,
      hrt, hden, hreg, hout, hproc, jTruthy, jo,
      Bind.bind, Except.bind, Pure.pure, Except.pure]
    simp [ja]

/-- C2 witness: a concrete two-directory batch in which directory 1 holds
the referencing document and directory 2 the PractitionerRole. -/
theorem c2_witness :
    (orch_transform_directories
        (fun s => if s = "Observation" then
          some (fun _ => .ok (some (.obj (jo [("resourceType", .str "Observation"),
            ("performer", .obj (jo [("reference", .str "PractitionerRole/9")]))]))))
          else none)
        none
        [[.obj (jo [("resourceType", .str "Observation")])],
         [.obj (jo [("resourceType", .str "PractitionerRole"), ("id", .str "9"),
           ("practitioner", .obj (jo [("reference", .str "Practitioner/3")]))])]]).2 =
      [.written (.obj (jo [("resourceType", .str "Observation"),
          ("performer", .obj (jo [("reference", .str "Practitioner/3"),
            ("extension", .arr (ja [.obj (jo
              [("url", .str practitionerrole_reference_url),
               ("valueReference", .obj (jo
                 [("reference", .str "PractitionerRole/9")]))])]))]))])),
        orch_process_one
          (fun s => if s = "Observation" then
            some (fun _ => .ok (some (.obj (jo [("resourceType", .str "Observation"),
              ("performer", .obj (jo [("reference", .str "PractitionerRole/9")]))]))))
            else none)
          none
          (some [(.str "9", .obj (jo [("resourceType", .str "PractitionerRole"),
            ("id", .str "9"),
            ("practitioner", .obj (jo [("reference", .str "Practitioner/3")]))]))])
          (.obj (jo [("resourceType", .str "PractitionerRole"), ("id", .str "9"),
            ("practitioner", .obj (jo [("reference", .str "Practitioner/3")]))]))] :=
  (c2_barrier_and_cross_directory_resolution
    (fun s => if s = "Observation" then
      some (fun _ => .ok (some (.obj (jo [("resourceType", .str "Observation"),
        ("performer", .obj (jo [("reference", .str "PractitionerRole/9")]))]))))
      else none)
    (fun _ => .ok (some (.obj (jo [("resourceType", .str "Observation"),
      ("performer", .obj (jo [("reference", .str "PractitionerRole/9")]))]))))
    (jo [("resourceType", .str "Observation")])
    "Observation" "Observation" "PractitionerRole/9" "9" "Practitioner/3"
    (by decide) (by decide) (by decide) rfl rfl
    (by decide) (by decide) (by decide) (by decide) (by decide)).2

/-- Number of error outcomes in a list. -/
def countErrors : List Outcome → Nat
  | [] => 0
  | .error :: rest => 1 + countErrors rest
  | .written _ :: rest => countErrors rest
  | .skipped :: rest => countErrors rest

theorem accumStats_errors : ∀ (l : List Outcome) (s : RunStats),
    (accumStats s l).errors = s.errors + countErrors l := by
  intro l
  induction l with
  | nil => intro s; simp [accumStats, countErrors]
  | cons o rest ih =>
      intro s
      have h2 := ih (bumpStats s o)
      simp only [accumStats, List.foldl_cons] at h2 ⊢
      cases o <;> simp [bumpStats, countErrors] at h2 ⊢ <;> omega

theorem countErrors_append (l1 l2 : List Outcome) :
    countErrors (l1 ++ l2) = countErrors l1 + countErrors l2 := by
  induction l1 with
  | nil => simp [countErrors]
  | cons o rest ih =>
      cases o with
      | written v => simp [countErrors, ih]
      | skipped => simp [countErrors, ih]
      | error =>
          simp [countErrors, ih]
          omega

/-- C8: a document whose resource type is neither denied nor registered
is reported as an error for that document only — the registry dispatch
raises `ValueError`, `transform_file` catches it (so no output document
exists for it), the error counter accounts for it, and every other
document of the batch is still processed against the pooled index. -/
theorem c8_unsupported_type_is_error_and_batch_continues
    (reg : Registry) (docs1 docs2 : List JVal) (fA : JObj) (rtA : String)
    (h1 : fA.get "resourceType" = some (.str rtA))
    (h2 : rtA ∉ denied_resource_types)
    (h3 : reg rtA = none) :
    orch_process_one reg none
        (some (collect_practitioner_role_resources_from_dirs
          [docs1 ++ .obj fA :: docs2])) (.obj fA) = .error ∧
    (orch_transform_directories reg none [docs1 ++ .obj fA :: docs2]).2 =
      docs1.map (orch_process_one reg none
          (some (collect_practitioner_role_resources_from_dirs
            [docs1 ++ .obj fA :: docs2]))) ++
        .error :: docs2.map (orch_process_one reg none
          (some (collect_practitioner_role_resources_from_dirs
            [docs1 ++ .obj fA :: docs2]))) ∧
    (orch_transform_directories reg none [docs1 ++ .obj fA :: docs2]).1.errors =
      countErrors (docs1.map (orch_process_one reg none
          (some (collect_practitioner_role_resources_from_dirs
            [docs1 ++ .obj fA :: docs2])))) + 1 +
        countErrors (docs2.map (orch_process_one reg none
          (some (collect_practitioner_role_resources_from_dirs
            [docs1 ++ .obj fA :: docs2])))) := by
  have ha : ∀ prr, orch_process_one reg none (some prr) (.obj fA) = .error := by
    intro prr
    simp [orch_process_one, orch_transform_file, orch_transform_resource, rtIsDenied,
      h1, h2, h3]
  refine ⟨ha _, ?_, ?_⟩
  · rw [orch_transform_directories_eq]
    simp [List.map_append, ha]
  · rw [orch_transform_directories_eq]
    simp only [List.flatten_cons, List.flatten_nil, List.append_nil, List.map_append,
      List.map_cons, ha]
    rw [accumStats_errors, countErrors_append]
    simp [countErrors]
    omega

/-- C8 witness: the spec's concrete `Patientt` scenario, with one
following document that is still processed. -/
theorem c8_witness :
    orch_process_one (fun _ => none) none
        (some (collect_practitioner_role_resources_from_dirs
          [[.obj (jo [("resourceType", .str "Patientt")]),
            .obj (jo [("resourceType", .str "ValueSet")])]]))
        (.obj (jo [("resourceType", .str "Patientt")])) = .error ∧
    (orch_transform_directories (fun _ => none) none
        [[.obj (jo [("resourceType", .str "Patientt")]),
          .obj (jo [("resourceType", .str "ValueSet")])]]).1.errors = 1 := by
  have h := c8_unsupported_type_is_error_and_batch_continues (fun _ => none)
    [] [.obj (jo [("resourceType", .str "ValueSet")])]
    (jo [("resourceType", .str "Patientt")]) "Patientt"
    (by decide) (by decide) rfl
  simp only [List.nil_append] at h
  refine ⟨h.1, ?_⟩
  rw [h.2.2]
  decide

mutual
/-- Empty-extension invariant: no object node anywhere binds `extension`
to an empty list. -/
def noEmptyExt : JVal → Bool
  | .obj f => !(f.get "extension" == some (.arr .nil)) && noEmptyExtObj f
  | .arr l => noEmptyExtArr l
  | _ => true

/-- Field-wise recursion of `noEmptyExt`. -/
def noEmptyExtObj : JObj → Bool
  | .nil => true
  | .cons _ v rest => noEmptyExt v && noEmptyExtObj rest

/-- Element-wise recursion of `noEmptyExt`. -/
def noEmptyExtArr : JArr → Bool
  | .nil => true
  | .cons v rest => noEmptyExt v && noEmptyExtArr rest
end

/-- Inversion of a successful `Except` bind, phrased on the `do`
desugaring. -/
theorem except_bind_ok' {α β : Type} {m : Except Unit α} {f : α → Except Unit β} {b : β}
    (h : (m >>= f) = .ok b) : ∃ a, m = .ok a ∧ f a = .ok b := by
  cases m with
  | ok a => exact ⟨a, rfl, h⟩
  | error e => exact Except.noConfusion h

/-- Inversion of a successful `Except` pure. -/
theorem except_pure_ok {α : Type} {a b : α} (h : (pure a : Except Unit α) = .ok b) :
    a = b := Except.ok.inj h

/-- The element-wise extension pass preserves list length. -/
theorem transformExtElems_length : ∀ (fuel : Nat) (l out : JArr),
    transformExtElems fuel l = .ok out → out.length = l.length := by
  intro fuel
  induction fuel with
  | zero => intro l out h; exact Except.noConfusion h
  | succ f ih =>
      intro l out h
      cases l with
      | nil =>
          have := except_pure_ok h
          subst this; rfl
      | cons v rest =>
          simp only [transformExtElems] at h
          obtain ⟨w, hw, h2⟩ := except_bind_ok' h
          obtain ⟨rest', hrest, h3⟩ := except_bind_ok' h2
          have := except_pure_ok h3
          subst this
          simp [JArr.length, ih rest rest' hrest]

/-- Introduction form of the empty-extension invariant at an object node. -/
theorem noEmptyExt_obj_intro {out : JObj} (h1 : out.get "extension" ≠ some (.arr .nil))
    (h2 : noEmptyExtObj out = true) : noEmptyExt (.obj out) = true := by
  simp only [noEmptyExt, Bool.and_eq_true, Bool.not_eq_true']
  exact ⟨beq_eq_false_iff_ne.mpr h1, h2⟩

/-- Shape preservation of the extension pass: the output is an empty list
only when the input was (dicts map to dicts, lists to lists of the same
length, scalars to themselves). -/
theorem transformExt_shape (fuel : Nat) (v w : JVal)
    (h : transform_extensions_in_object fuel v = .ok w) :
    w = .arr .nil → v = .arr .nil := by
  cases fuel with
  | zero => exact Except.noConfusion h
  | succ f =>
      cases v with
      | obj fl =>
          simp only [transform_extensions_in_object] at h
          split at h
          · obtain ⟨t, ht, h'⟩ := except_bind_ok' h
            by_cases htn : t = JArr.nil
            · rw [if_pos htn] at h'
              obtain ⟨y, hy, h2⟩ := except_bind_ok' h'
              have hy' := except_pure_ok hy; subst hy'
              obtain ⟨out, h3, h4⟩ := except_bind_ok' h2
              have := except_pure_ok h4; subst this
              intro hc; exact JVal.noConfusion hc
            · rw [if_neg htn] at h'
              obtain ⟨y, hy, h2⟩ := except_bind_ok' h'
              have hy' := except_pure_ok hy; subst hy'
              obtain ⟨out, h3, h4⟩ := except_bind_ok' h2
              have := except_pure_ok h4; subst this
              intro hc; exact JVal.noConfusion hc
          · obtain ⟨y, hy, h2⟩ := except_bind_ok' h
            have hy' := except_pure_ok hy; subst hy'
            obtain ⟨out, h3, h4⟩ := except_bind_ok' h2
            have := except_pure_ok h4; subst this
            intro hc; exact JVal.noConfusion hc
      | arr l =>
          simp only [transform_extensions_in_object] at h
          obtain ⟨out, h3, h4⟩ := except_bind_ok' h
          have := except_pure_ok h4
          subst this
          intro hc
          have hlen := transformExtElems_length f l out h3
          cases out with
          | nil =>
              cases l with
              | nil => rfl
              | cons x r =>
                  simp only [JArr.length] at hlen
                  omega
          | cons x r => exact JArr.noConfusion (JVal.arr.inj hc)
      | null => have := except_pure_ok h; subst this; intro hc; exact JVal.noConfusion hc
      | bool b => have := except_pure_ok h; subst this; intro hc; exact JVal.noConfusion hc
      | num n => have := except_pure_ok h; subst this; intro hc; exact JVal.noConfusion hc
      | str s => have := except_pure_ok h; subst this; intro hc; exact JVal.noConfusion hc

/-- Master invariant of the extension pass: every successful result
satisfies the empty-extension invariant; field-wise results additionally
relate each output binding to its input binding. -/
theorem noEmptyExt_master : ∀ fuel : Nat,
    (∀ v w, transform_extensions_in_object fuel v = .ok w → noEmptyExt w = true) ∧
    (∀ fl out, transformExtFields fuel fl = .ok out →
      noEmptyExtObj out = true ∧
      ∀ k, (fl.get k = none ∧ out.get k = none) ∨
        ∃ v w, fl.get k = some v ∧ out.get k = some w ∧ noEmptyExt w = true ∧
          (w = .arr .nil → v = .arr .nil)) ∧
    (∀ l out, transformExtElems fuel l = .ok out → noEmptyExtArr out = true) := by
  intro fuel
  induction fuel with
  | zero =>
      refine ⟨fun v w h => Except.noConfusion h, fun fl out h => Except.noConfusion h,
        fun l out h => Except.noConfusion h⟩
  | succ f ih =>
      obtain ⟨ih1, ih2, ih3⟩ := ih
      refine ⟨?_, ?_, ?_⟩
      · intro v w h
        cases v with
        | obj fl =>
            simp only [transform_extensions_in_object] at h
            split at h
            · rename_i exts heq
              obtain ⟨t, ht, h'⟩ := except_bind_ok' h
              by_cases htn : t = JArr.nil
              · rw [if_pos htn] at h'
                obtain ⟨y, hy, h2⟩ := except_bind_ok' h'
                have hy' := except_pure_ok hy; subst hy'
                obtain ⟨out, h3, h4⟩ := except_bind_ok' h2
                have := except_pure_ok h4; subst this
                obtain ⟨hobj, hrel⟩ := ih2 _ out h3
                refine noEmptyExt_obj_intro ?_ hobj
                rcases hrel "extension" with ⟨hl, hr⟩ | ⟨v', w', hv', hw', hne', hnil⟩
                · rw [hr]; exact fun hc => Option.noConfusion hc
                · rw [JObj.get_remove_self] at hv'
                  exact Option.noConfusion hv'
              · rw [if_neg htn] at h'
                obtain ⟨y, hy, h2⟩ := except_bind_ok' h'
                have hy' := except_pure_ok hy; subst hy'
                obtain ⟨out, h3, h4⟩ := except_bind_ok' h2
                have := except_pure_ok h4; subst this
                obtain ⟨hobj, hrel⟩ := ih2 _ out h3
                refine noEmptyExt_obj_intro ?_ hobj
                rcases hrel "extension" with ⟨hl, hr⟩ | ⟨v', w', hv', hw', hne', hnil⟩
                · rw [hr]; exact fun hc => Option.noConfusion hc
                · rw [hw']
                  intro hc
                  have hw0 : w' = .arr .nil := Option.some.inj hc
                  have hv0 : v' = .arr .nil := hnil hw0
                  subst hv0
                  rw [JObj.get_set_self] at hv'
                  exact htn (JVal.arr.inj (Option.some.inj hv'))
            · rename_i hnomatch
              obtain ⟨y, hy, h2⟩ := except_bind_ok' h
              have hy' := except_pure_ok hy; subst hy'
              obtain ⟨out, h3, h4⟩ := except_bind_ok' h2
              have := except_pure_ok h4; subst this
              obtain ⟨hobj, hrel⟩ := ih2 _ out h3
              refine noEmptyExt_obj_intro ?_ hobj
              rcases hrel "extension" with ⟨hl, hr⟩ | ⟨v', w', hv', hw', hne', hnil⟩
              · rw [hr]; exact fun hc => Option.noConfusion hc
              · rw [hw']
                intro hc
                have hw0 : w' = .arr .nil := Option.some.inj hc
                have hv0 : v' = .arr .nil := hnil hw0
                subst hv0
                exact hnomatch JArr.nil hv'
        | arr l =>
            simp only [transform_extensions_in_object] at h
            obtain ⟨out, h3, h4⟩ := except_bind_ok' h
            have := except_pure_ok h4
            subst this
            simpa [noEmptyExt] using ih3 l out h3
        | null => have := except_pure_ok h; subst this; rfl
        | bool b => have := except_pure_ok h; subst this; rfl
        | num n => have := except_pure_ok h; subst this; rfl
        | str s => have := except_pure_ok h; subst this; rfl
      · intro fl out h
        cases fl with
        | nil =>
            have := except_pure_ok h
            subst this
            exact ⟨rfl, fun k => Or.inl ⟨rfl, rfl⟩⟩
        | cons k v rest =>
            simp only [transformExtFields] at h
            obtain ⟨w, hw, h2⟩ := except_bind_ok' h
            obtain ⟨rest', hrest, h3⟩ := except_bind_ok' h2
            have := except_pure_ok h3
            subst this
            obtain ⟨hro, hrrel⟩ := ih2 rest rest' hrest
            refine ⟨?_, ?_⟩
            · simp [noEmptyExtObj, ih1 v w hw, hro]
            · intro k'
              by_cases hk : k = k'
              · subst hk
                exact Or.inr ⟨v, w, by simp [JObj.get], by simp [JObj.get],
                  ih1 v w hw, transformExt_shape f v w hw⟩
              · rcases hrrel k' with ⟨hl, hr⟩ | ⟨v', w', hv', hw', hne', hnil⟩
                · exact Or.inl ⟨by simp [JObj.get, hk, hl], by simp [JObj.get, hk, hr]⟩
                · exact Or.inr ⟨v', w', by simp [JObj.get, hk, hv'],
                    by simp [JObj.get, hk, hw'], hne', hnil⟩
      · intro l out h
        cases l with
        | nil =>
            have := except_pure_ok h
            subst this
            rfl
        | cons v rest =>
            simp only [transformExtElems] at h
            obtain ⟨w, hw, h2⟩ := except_bind_ok' h
            obtain ⟨rest', hrest, h3⟩ := except_bind_ok' h2
            have := except_pure_ok h3
            subst this
            simp [noEmptyExtArr, ih1 v w hw, ih3 rest rest' hrest]

/-- C9: every document produced by the extension-rewriting pass satisfies
the empty-extension invariant — whenever denylist filtering empties an
extension list, the `extension` key itself is removed, at every depth. -/
theorem c9_no_empty_extension_list (fuel : Nat) (v w : JVal)
    (h : transform_extensions_in_object fuel v = .ok w) : noEmptyExt w = true :=
  (noEmptyExt_master fuel).1 v w h

/-- C9 witness: a document whose only extension is denylisted comes out
with the `extension` key removed and satisfies the invariant. -/
theorem c9_witness :
    transform_extensions_in_object 10
        (.obj (jo [("a", .str "x"), ("extension", .arr (ja [.obj (jo [("url",
          .str "http://hl7.org/fhir/StructureDefinition/patient-relatedPerson")])]))])) =
      .ok (.obj (jo [("a", .str "x")])) ∧
    noEmptyExt (.obj (jo [("a", .str "x")])) = true :=
  ⟨by decide, c9_no_empty_extension_list 10
    (.obj (jo [("a", .str "x"), ("extension", .arr (ja [.obj (jo [("url",
      .str "http://hl7.org/fhir/StructureDefinition/patient-relatedPerson")])]))]))
    (.obj (jo [("a", .str "x")])) (by decide)⟩

/-- C10: when the Communication field pipeline raises internally, the
rule set's `try`/`except` turns the exception into a `None` result, and
the orchestrator then records the document as skipped — not as an
error. -/
theorem c10_exception_becomes_skip (fuel : Nat) (r4 base : JObj)
    (reg : Registry) (prr : Option PRIndex)
    (hrt : r4.get "resourceType" = some (.str "Communication"))
    (hsetup : comm_transform_setup r4 = .ok base)
    (hpipe : comm_transform_pipeline fuel r4 base = .error ())
    (hreg : reg "Communication" = some (comm_transform_resource fuel)) :
    comm_transform_resource fuel (.obj r4) = .ok none ∧
    orch_transform_file reg prr (.obj r4) = .skipped := by
  have hcomm : comm_transform_resource fuel (.obj r4) = .ok none := by
    simp [comm_transform_resource, hrt, hsetup, hpipe, Bind.bind, Except.bind,
      Pure.pure, Except.pure]
  refine ⟨hcomm, ?_⟩
  simp [orch_transform_file, orch_transform_resource, rtIsDenied, hrt, hreg, hcomm,
    denied_resource_types, Bind.bind, Except.bind, Pure.pure, Except.pure]

/-- C10 witness: a Communication whose `extension` value is the number 5
makes the topic step raise (`TypeError`: iterating an int); the rule set
returns `None` and the orchestrator reports the document as skipped. -/
theorem c10_witness :
    comm_transform_resource 40
        (.obj (jo [("resourceType", .str "Communication"), ("extension", .num 5)])) =
      .ok none ∧
    orch_transform_file
        (fun s => if s = "Communication" then some (comm_transform_resource 40) else none)
        none
        (.obj (jo [("resourceType", .str "Communication"), ("extension", .num 5)])) =
      .skipped :=
  c10_exception_becomes_skip 40
    (jo [("resourceType", .str "Communication"), ("extension", .num 5)])
    (jo [("resourceType", .str "Communication")])
    (fun s => if s = "Communication" then some (comm_transform_resource 40) else none)
    none
    (by decide) (by decide) (by decide) rfl
